import Mathlib

set_option autoImplicit false

/-!
Verification of the zipline pipeline term-algebra, container and
prescreen-pushdown layer against its specification.

Part 1 embeds the classifier term algebra of
`zipline/pipeline/classifiers/classifier.py`; part 2 embeds the pipeline
container and the prescreen optimizer of `zipline/pipeline/pipeline.py`.
Collaborators that are not part of the source tree (the LabelArray payload,
the numexpr expression builder, the prescreen-consuming loader) are modelled
from the specification and marked as such.
-/

namespace ZiplineSpec

/-! ## Python scalar values and errors -/

/-- A Python scalar as it appears in classifier comparisons, `ArrayPredicate`
opargs and prescreen field values: a string, an int, a bool or `None`. -/
inductive PValue
  | pstr (s : String)
  | pint (i : Int)
  | pbool (b : Bool)
  | pnone
deriving DecidableEq, Repr

/-- `isinstance(v, numbers.Number)`: ints and bools are Numbers in Python. -/
def PValue.isNumber : PValue → Bool
  | .pint _ => true
  | .pbool _ => true
  | _ => false

/-- `isinstance(v, int)`: bools are ints in Python. -/
def PValue.isInt : PValue → Bool
  | .pint _ => true
  | .pbool _ => true
  | _ => false

/-- `isinstance(v, (bytes, unicode))`. -/
def PValue.isStr : PValue → Bool
  | .pstr _ => true
  | _ => false

/-- Python `int(v)` on a Number. -/
def PValue.toPyInt : PValue → Int
  | .pint i => i
  | .pbool b => if b then 1 else 0
  | _ => 0

/-- Python `repr(v)`. -/
def PValue.pyRepr : PValue → String
  | .pstr s => "\x27" ++ s ++ "\x27"
  | .pint i => toString i
  | .pbool b => if b then "True" else "False"
  | .pnone => "None"

/-- Python `str(v)`. -/
def PValue.pyStr : PValue → String
  | .pstr s => s
  | .pint i => toString i
  | .pbool b => if b then "True" else "False"
  | .pnone => "None"

/-- Python `type(v).__name__`. -/
def PValue.pyTypeName : PValue → String
  | .pstr _ => "str"
  | .pint _ => "int"
  | .pbool _ => "bool"
  | .pnone => "NoneType"

/-- The kind of Python exception raised by the embedded code. -/
inductive ErrKind
  | valueError
  | typeError
  | keyError
  | notImplementedError
  | assertionError
  | unsupportedPipelineOutput
deriving DecidableEq, Repr

/-- A raised Python exception: its kind and its message. -/
structure PyErr where
  kind : ErrKind
  msg : String
deriving DecidableEq, Repr

/-! ## Classifier dtypes

`Classifier.ALLOWED_DTYPES = CLASSIFIER_DTYPES`, i.e. every constructed
Classifier instance carries either the integer-coded or the
categorical/string dtype (`RestrictedDTypeMixin` rejects anything else at
validation time), so the embedding restricts the dtype field to those two. -/

inductive CDtype
  | int64
  | categorical
deriving DecidableEq, Repr

/-- `dtype.name` as numpy prints it (`categorical_dtype` is `np.dtype(object)`). -/
def CDtype.dname : CDtype → String
  | .int64 => "int64"
  | .categorical => "object"

/-- The attributes of a `zipline.pipeline.Classifier` instance that its
term-algebra methods (`eq`, `isin`, `relabel`, `shift`) read: the subclass
name (for error messages), the dtype and the missing-value sentinel. -/
structure Classifier where
  typename : String
  dtype : CDtype
  missing_value : PValue
deriving DecidableEq, Repr

/-! ## Filters produced by the classifier algebra -/

/-- The `op` argument of an `ArrayPredicate` built by classifier methods. -/
inductive PredOp
  | opEq          -- operator.eq
  | opNe          -- operator.ne
  | laIsin        -- LabelArray.isin
  | vecIsElement  -- vectorized_is_element
deriving DecidableEq, Repr

/-- A Filter node produced by `Classifier.eq` / `Classifier.isin`: either a
`NumExprFilter.create("x_0 == k", binds=(self,))` or an
`ArrayPredicate(term=self, op=op, opargs=args)`. -/
inductive FilterNode
  | numExprEqSelf (k : Int)
  | arrayPred (op : PredOp) (opargs : List PValue)
deriving DecidableEq, Repr

/-- Message of the ValueError raised by `Classifier.eq` on comparison against
the classifier's own missing value. -/
def eqMissingMsg (v : PValue) (typename : String) : String :=
  "Comparison against self.missing_value (" ++ v.pyRepr ++ ") in " ++
    typename ++ ".eq().\n" ++
    "Missing values have NaN semantics, so the " ++
    "requested comparison would always produce False.\n" ++
    "Use the isnull() method to check for missing values."

/-- Message of `InvalidClassifierComparison` (a TypeError subclass). -/
def invalidComparisonMsg (c : Classifier) (v : PValue) : String :=
  "Can\x27t compare classifier of dtype " ++ c.dtype.dname ++
    " to value " ++ v.pyStr ++ " of type " ++ v.pyTypeName ++ "."

/-- `Classifier.eq`: the missing-value guard runs first, then the
Number-vs-dtype cross check, then dispatch to a numexpr filter (numeric) or
an `ArrayPredicate` with `operator.eq` (categorical). -/
def Classifier.eq (c : Classifier) (other : PValue) : Except PyErr FilterNode :=
  if other = c.missing_value then
    .error ⟨.valueError, eqMissingMsg other c.typename⟩
  else if other.isNumber != (c.dtype == CDtype.int64) then
    .error ⟨.typeError, invalidComparisonMsg c other⟩
  else if other.isNumber then
    .ok (.numExprEqSelf other.toPyInt)
  else
    .ok (.arrayPred .opEq [other])

/-- Message of the ValueError raised by `Classifier.isin` when the missing
value is among the choices (the Python code additionally prints the sorted
choice set, which no theorem below inspects). -/
def isinMissingMsg (c : Classifier) : String :=
  "Found self.missing_value (" ++ c.missing_value.pyRepr ++
    ") in choices supplied to " ++ c.typename ++ ".isin().\n" ++
    "Missing values have NaN semantics, so the" ++
    " requested comparison would always produce False.\n" ++
    "Use the isnull() method to check for missing values."

def isinNonIntMsg (c : Classifier) : String :=
  "Found non-int in choices for " ++ c.typename ++ ".isin."

def isinNonStrMsg (c : Classifier) : String :=
  "Found non-string in choices for " ++ c.typename ++ ".isin."

/-- `Classifier.isin`: `choices = frozenset(choices)` (hashability cannot fail
in this model, so the surrounding try/except TypeError path is not
representable); then the missing-value guard; then dtype dispatch with
per-element type checks.  With the dtype restricted to the two classifier
dtypes, the trailing `assert False` branch of the source is unreachable. -/
def Classifier.isin (c : Classifier) (choices : List PValue) :
    Except PyErr FilterNode :=
  let s := choices.dedup
  if c.missing_value ∈ s then
    .error ⟨.valueError, isinMissingMsg c⟩
  else if c.dtype == CDtype.int64 then
    if s.all PValue.isInt then
      .ok (.arrayPred .vecIsElement s)
    else
      .error ⟨.typeError, isinNonIntMsg c⟩
  else
    if s.all PValue.isStr then
      .ok (.arrayPred .laIsin s)
    else
      .error ⟨.typeError, isinNonStrMsg c⟩

/-! ## Cell-level semantics of the produced filters

Modelled from the spec: the evaluation engine and the LabelArray payload are
external to the source tree.  A classifier output cell is either an int64
value (missing data stored as the sentinel value) or a categorical value
(`none` being the reserved missing code); per the spec's Coded String Array
invariant, no vectorized predicate ever matches the missing code. -/

inductive Cell
  | ival (i : Int)
  | sval (v : Option String)
deriving DecidableEq, Repr

/-- Modelled from the spec: elementwise evaluation of the filters built by
`Classifier.eq` / `Classifier.isin` at one cell. -/
def evalFilterNode : FilterNode → Cell → Bool
  | .numExprEqSelf k, .ival i => i == k
  | .numExprEqSelf _, .sval _ => false
  | .arrayPred .opEq args, .sval v =>
      match v, args with
      | some s, [.pstr t] => s == t
      | _, _ => false
  | .arrayPred .laIsin choices, .sval v =>
      match v with
      | some s => choices.contains (.pstr s)
      | none => false
  | .arrayPred .vecIsElement choices, .ival i => choices.contains (.pint i)
  | _, _ => false

/-- A cell holds missing data for classifier `c`. -/
def cellIsMissing (c : Classifier) : Cell → Bool
  | .ival i => PValue.pint i == c.missing_value
  | .sval none => true
  | .sval (some s) => PValue.pstr s == c.missing_value

/-- Result of `c.eq v` evaluated at a cell (`false` when `eq` raises). -/
def evalEqAt (c : Classifier) (v : PValue) (cell : Cell) : Bool :=
  match c.eq v with
  | .ok g => evalFilterNode g cell
  | .error _ => false

/-- The element type `Classifier.isin`'s per-dtype checks demand, specialized
to proper elements (ints for int64, strings for categorical). -/
def elemTypeOk (d : CDtype) : PValue → Bool
  | .pint _ => d == CDtype.int64
  | .pstr _ => d == CDtype.categorical
  | _ => false

/-- The cell kind matching a classifier dtype. -/
def cellKindOk (d : CDtype) : Cell → Bool
  | .ival _ => d == CDtype.int64
  | .sval _ => d == CDtype.categorical

/-! ## relabel -/

/-- Template of `string_classifiers_only = restrict_to_dtype(...)` declared in
classifier.py. -/
def stringClassifiersOnlyMsg (methodName : String) (d : CDtype) : String :=
  methodName ++ "() is only defined on Classifiers producing strings" ++
    " but it was called on a Classifier of dtype " ++ d.dname ++ "."

/-- Modelled from the spec: the `restrict_to_dtype` decorator
(zipline/pipeline/api_utils.py is not under src/).  Per the spec, a
string-only operation called on a numeric-coded term fails with a
dtype-mismatch error naming the offending method and received dtype; the
message template is the `string_classifiers_only` one declared in
classifier.py. -/
def string_classifiers_only (methodName : String) (c : Classifier) :
    Option PyErr :=
  if c.dtype == CDtype.categorical then none
  else some ⟨.typeError, stringClassifiersOnlyMsg methodName c.dtype⟩

/-- Message of the TypeError raised by `Relabel.__new__` on a non-categorical
input term. -/
def relabelNewMsg (d : CDtype) : String :=
  "term should have dtype object but has " ++ d.dname

/-- The `Relabel` node built by `Classifier.relabel`: single input term and
the relabeling function stored in params. -/
structure RelabelNode where
  term : Classifier
  relabeler : String → String

/-- `Classifier.relabel`: guarded by the `string_classifiers_only` decorator,
then `Relabel.__new__`'s own dtype check (unreachable after the decorator). -/
def Classifier.relabel (c : Classifier) (relabeler : String → String) :
    Except PyErr RelabelNode :=
  match string_classifiers_only "relabel" c with
  | some e => .error e
  | none =>
    if c.dtype != CDtype.categorical then
      .error ⟨.typeError, relabelNewMsg c.dtype⟩
    else
      .ok ⟨c, relabeler⟩

/-- Modelled from the spec: the Coded String Array (LabelArray) payload —
a finite category table together with a grid of codes, `none` being the
reserved missing code (never a valid index into the table). -/
structure LabelArray where
  categories : List String
  codes : List (Option Nat)
deriving DecidableEq, Repr

/-- Decode one cell of a LabelArray (`none` for the missing code or an
out-of-table code). -/
def LabelArray.cellValue (la : LabelArray) (i : Nat) : Option String :=
  match la.codes[i]? with
  | some (some code) => la.categories[code]?
  | _ => none

/-- Modelled from the spec: `LabelArray.map` applies the function once per
distinct category value, rewriting the category table and leaving the code
grid (in particular every missing cell) unchanged. -/
def LabelArray.mapCats (la : LabelArray) (fn : String → String) : LabelArray :=
  ⟨la.categories.map fn, la.codes⟩

/-- The data handed to `Relabel._compute`: a LabelArray for categorical
inputs, a plain int array for int-coded inputs. -/
inductive ClassifierData
  | labelArr (la : LabelArray)
  | intArr (xs : List Int)

/-- `Relabel._compute`: `data.map(relabeler)` then `result[~mask] =
data.missing_value`; the int-array branch raises NotImplementedError. -/
def relabelCompute (relabeler : String → String) (data : ClassifierData)
    (mask : List Bool) : Except PyErr LabelArray :=
  match data with
  | .labelArr la =>
      let result := la.mapCats relabeler
      .ok { result with
              codes := List.zipWith (fun m code => if m then code else none)
                mask result.codes }
  | .intArr _ =>
      .error ⟨.notImplementedError,
        "Relabeling is not currently supported for int-dtype classifiers."⟩

/-! ## shift -/

/-- The `Shift` node built by `Classifier.shift`: a CustomClassifier with
`inputs=[self]`, `window_length=periods + 1` and the input's dtype. -/
structure ShiftNode where
  window_length : Int
  dtype : CDtype
deriving DecidableEq, Repr

/-- `Classifier.shift(periods, mask)` (the mask is irrelevant to the claims
settled here). -/
def Classifier.shift (c : Classifier) (periods : Int) : ShiftNode :=
  ⟨periods + 1, c.dtype⟩

/-- Message of the ValueError raised by `Shift._validate` (note the missing
space of the source's string concatenation: "lengthof"). -/
def shiftWindowMsg (wl : Int) : String :=
  "\x27Shift\x27 expected a window length" ++
    "of at least 2, but was given " ++ toString wl ++ ". " ++
    "To shift one period, use a window " ++
    "length of 2."

/-- `Shift._validate`: `super()._validate()` (with the dtype restricted to
the classifier dtypes, the inherited dtype-taxonomy check always passes),
then the window-length lower bound.  Modelled from the spec: validation is a
separate pass, deferred rather than run at construction. -/
def ShiftNode.validate (s : ShiftNode) : Except PyErr Unit :=
  if s.window_length < 2 then
    .error ⟨.valueError, shiftWindowMsg s.window_length⟩
  else
    .ok ()

/-! ## Domains -/

/-- A pipeline domain: the distinguished `GENERIC` sentinel or a concrete
(named, singleton) domain; the source compares domains with `is`, which for
these singletons coincides with structural equality. -/
inductive PDomain
  | generic
  | named (s : String)
deriving DecidableEq, Repr

/-- `str(domain)`. -/
def PDomain.dstr : PDomain → String
  | .generic => "GENERIC"
  | .named s => s

/-- Message of the ValueError raised by `Pipeline.domain` on conflicting
domains, naming the inferred and the explicit domain. -/
def conflictingDomainsMsg (inferred explicitDomain : PDomain) : String :=
  "Conflicting domains in Pipeline. Inferred " ++ inferred.dstr ++
    ", but " ++ explicitDomain.dstr ++ " was passed at construction."

/-- `Pipeline.domain(default)`: three-way resolution between the inferred
domain (computed by the external `infer_domain` collaborator, here a
parameter) and the pipeline's explicit domain. -/
def pipelineDomain (explicitDomain inferred dflt : PDomain) :
    Except PyErr PDomain :=
  if inferred == PDomain.generic && explicitDomain == PDomain.generic then
    .ok dflt
  else if inferred == PDomain.generic && explicitDomain != PDomain.generic then
    .ok explicitDomain
  else if inferred != PDomain.generic && explicitDomain == PDomain.generic then
    .ok inferred
  else
    if inferred != explicitDomain then
      .error ⟨.valueError, conflictingDomainsMsg inferred explicitDomain⟩
    else
      .ok inferred

/-! ## Terms as the prescreen optimizer sees them

The optimizer of pipeline.py inspects screen Filters structurally
(`isinstance` checks, `inputs`, `params`, `dataset.qualname`, and for
`NumExprFilter` the expression string and the bindings dict).  `PTerm`
mirrors exactly the shapes those checks distinguish; expression strings are
embedded as `List Char` so that the source's string manipulation (replace,
split, membership) is executable and provable. -/

/-- A `BoundColumn`: the only term kind with a `dataset` attribute
(`hasattr(x, "dataset")` holds exactly for these). -/
structure BoundCol where
  datasetQualname : String
  name : String
deriving DecidableEq, Repr

/-- An argument of an `ArrayPredicate`'s `opargs` tuple: a plain value, or
the frozenset that `Classifier.isin` passes (represented by the list of its
elements). -/
inductive OpArg
  | aval (v : PValue)
  | aset (vs : List PValue)
deriving DecidableEq, Repr

/-- Terms of the screen-expression universe the optimizer distinguishes. -/
inductive PTerm
  | singleAsset (sid : Int)
  | staticAssets (sids : List Int)
  | staticSids (sids : List String)
  | staticUniverse (sids : List String)
  | latestClassifier (col : BoundCol)
  | latestFactor (col : BoundCol)
  | latestFilter (col : BoundCol)
  | arrayPredicate (input : PTerm) (opName : String) (opargs : List OpArg)
  | nullFilter (input : PTerm)
  | notNullFilter (input : PTerm)
  | numExprFilter (expr : List Char) (bindings : List (List Char × PTerm))
  | otherTerm (tag : String) (ndim : Nat) (computable : Bool)

/-- `term.ndim`: every Filter/Classifier/Factor node is two-dimensional;
`otherTerm` carries its dimensionality explicitly (e.g. 1 for AssetExists). -/
def PTerm.ndim : PTerm → Nat
  | .otherTerm _ n _ => n
  | _ => 2

/-- `isinstance(term, ComputableTerm)`: true for all embedded
Filter/Classifier/Factor nodes; `otherTerm` carries the flag (false for
e.g. a raw BoundColumn). -/
def PTerm.isComputable : PTerm → Bool
  | .otherTerm _ _ c => c
  | _ => true

/-- A short rendering of a term for error messages (standing in for Python's
`str(term)`). -/
def PTerm.render : PTerm → String
  | .singleAsset _ => "SingleAsset"
  | .staticAssets _ => "StaticAssets"
  | .staticSids _ => "StaticSids"
  | .staticUniverse _ => "StaticUniverse"
  | .latestClassifier col => col.datasetQualname ++ "." ++ col.name ++ ".latest"
  | .latestFactor col => col.datasetQualname ++ "." ++ col.name ++ ".latest"
  | .latestFilter col => col.datasetQualname ++ "." ++ col.name ++ ".latest"
  | .arrayPredicate _ opName _ => "ArrayPredicate(" ++ opName ++ ")"
  | .nullFilter _ => "NullFilter"
  | .notNullFilter _ => "NotNullFilter"
  | .numExprFilter _ _ => "NumExprFilter"
  | .otherTerm tag _ _ => tag

/-! ## Prescreen dictionaries -/

/-- The `values` entry of a prescreen field definition: the source stores a
Python list for `eq`/`isin`/`ne` and boolean/null checks, but the bare
`opargs[0]` string for the substring/match operators. -/
inductive FieldVals
  | vlist (vs : List PValue)
  | vraw (v : PValue)
deriving DecidableEq, Repr

/-- One element of the prescreen's `fields` list. -/
structure Fielddef where
  field : String
  op : String
  negate : Bool
  values : FieldVals
deriving DecidableEq, Repr

/-- The prescreen dict: each `Option` field models presence of the
corresponding key (`sids`, `real_sids`, `fields`). -/
structure Prescreen where
  sids : Option (List Int)
  realSids : Option (List String)
  fields : Option (List Fielddef)
deriving DecidableEq, Repr

def Prescreen.empty : Prescreen := ⟨none, none, none⟩

/-- Python falsiness of the prescreen dict: no keys. -/
def Prescreen.isEmptyDict (p : Prescreen) : Bool :=
  p.sids.isNone && p.realSids.isNone && p.fields.isNone

/-- Append a field definition, creating the `fields` key if absent. -/
def Prescreen.addField (p : Prescreen) (fd : Fielddef) : Prescreen :=
  { p with fields := some (p.fields.getD [] ++ [fd]) }

/-- The op names `_term_to_prescreen_fielddef` recognizes on an
`ArrayPredicate` (`term.params["op"].__name__`). -/
def recognizedFieldOps : List String :=
  ["eq", "isin", "ne", "has_substring", "startswith", "endswith", "matches"]

/-- `opargs[0]` as a single value (the arg is a plain value for these ops). -/
def OpArg.asValue : OpArg → PValue
  | .aval v => v
  | .aset _ => .pnone

/-- `list(opargs[0])` for the isin case (the arg is a frozenset there). -/
def OpArg.asList : OpArg → List PValue
  | .aval v => [v]
  | .aset vs => vs

/-- The expression string `"x_0 != x_0"` that pipeline.py compares against
to recognize the float-column isnull idiom. -/
def selfNeExpr : List Char := "x_0 != x_0".data

/-- The expression string `"~x_0"` that pipeline.py compares against to
recognize a single negated term. -/
def notX0Expr : List Char := "~x_0".data

/-- The binding key `"x_0"`. -/
def x0Name : List Char := "x_0".data

/-- Lookup in a `NumExprFilter`'s bindings dict. -/
def lookupKey (key : List Char) : List (List Char × PTerm) → Option PTerm
  | [] => none
  | (k, v) :: rest => if k == key then some v else lookupKey key rest

/-- `_term_to_prescreen_fielddef`: converts a term to the `fields` entry of a
prescreen dict, or `None`.  The four branches mirror the source: an
`ArrayPredicate` over a `Latest` classifier of a SecuritiesMaster column with
a recognized op; a boolean SecuritiesMaster column read via LatestFilter; a
NullFilter/NotNullFilter over a Latest classifier or factor of a
SecuritiesMaster column; the `x_0 != x_0` NumExprFilter idiom over a Latest
factor of a SecuritiesMaster column. -/
def termToPrescreenFielddef (term : PTerm) : Option Fielddef :=
  match term with
  | .arrayPredicate (.latestClassifier col) opName opargs =>
      if col.datasetQualname == "SecuritiesMaster"
          && recognizedFieldOps.contains opName then
        let arg0 := opargs.headD (.aval .pnone)
        if opName == "eq" then
          some ⟨col.name, "eq", false, .vlist [arg0.asValue]⟩
        else if opName == "isin" then
          some ⟨col.name, "eq", false, .vlist arg0.asList⟩
        else if opName == "ne" then
          some ⟨col.name, "eq", true, .vlist [arg0.asValue]⟩
        else if opName == "has_substring" then
          some ⟨col.name, "contains", false, .vraw arg0.asValue⟩
        else if opName == "startswith" then
          some ⟨col.name, "startswith", false, .vraw arg0.asValue⟩
        else if opName == "endswith" then
          some ⟨col.name, "endswith", false, .vraw arg0.asValue⟩
        else
          some ⟨col.name, "match", false, .vraw arg0.asValue⟩
      else
        none
  | .latestFilter col =>
      if col.datasetQualname == "SecuritiesMaster" then
        some ⟨col.name, "eq", false, .vlist [.pbool true]⟩
      else
        none
  | .nullFilter inp =>
      match inp with
      | .latestClassifier col | .latestFactor col =>
          if col.datasetQualname == "SecuritiesMaster" then
            some ⟨col.name, "isnull", false, .vlist [.pbool true]⟩
          else
            none
      | _ => none
  | .notNullFilter inp =>
      match inp with
      | .latestClassifier col | .latestFactor col =>
          if col.datasetQualname == "SecuritiesMaster" then
            some ⟨col.name, "isnull", true, .vlist [.pbool true]⟩
          else
            none
      | _ => none
  | .numExprFilter expr bindings =>
      if expr = selfNeExpr then
        match lookupKey x0Name bindings with
        | some (.latestFactor col) =>
            if col.datasetQualname == "SecuritiesMaster" then
              some ⟨col.name, "isnull", false, .vlist [.pbool true]⟩
            else
              none
        | _ => none
      else
        none
  | _ => none

/-- The source's toggle `negate = True if negate == False else False`. -/
def toggleNegate (fd : Fielddef) : Fielddef :=
  { fd with negate := if fd.negate == false then true else false }

/-- Shared tail of `_term_to_prescreen_dict`: try the term itself as a field
definition, toggling its negate flag when `negate` was requested. -/
def dictFallback (term : PTerm) (p : Prescreen) (negate : Bool) :
    Option Prescreen :=
  match termToPrescreenFielddef term with
  | some fd =>
      let fd2 := if negate then toggleNegate fd else fd
      some (p.addField fd2)
  | none => none

/-- `_term_to_prescreen_dict`: converts a term to a prescreen dict, updating
the accumulator dict.  `negate` applies only to field definitions, not to
the sid-based branches (as the source's docstring notes).  The `~x_0`
NumExprFilter branch unwraps one unary negation, toggling the field's negate
flag (and toggling back when `negate` was additionally requested).  In the
source, a `~x_0` expression whose binding dict lacks `x_0` would raise a
KeyError; such a filter is not constructible by the expression builders, and
the model falls through to the (failing) general branch there. -/
def termToPrescreenDict (term : PTerm) (prescreen : Option Prescreen)
    (negate : Bool) : Option Prescreen :=
  let p := match prescreen with
    | none => Prescreen.empty
    | some q => if q.isEmptyDict then Prescreen.empty else q
  match term with
  | .singleAsset sid =>
      some { p with sids := some (p.sids.getD [] ++ [sid]) }
  | .staticAssets sids =>
      some { p with sids := some (p.sids.getD [] ++ sids) }
  | .staticSids sids =>
      some { p with realSids := some (p.realSids.getD [] ++ sids) }
  | .staticUniverse sids =>
      some { p with realSids := some (p.realSids.getD [] ++ sids) }
  | .numExprFilter expr bindings =>
      if expr = notX0Expr then
        match (lookupKey x0Name bindings).bind termToPrescreenFielddef with
        | some fd =>
            let fd1 := toggleNegate fd
            let fd2 := if negate then toggleNegate fd1 else fd1
            some (p.addField fd2)
        | none => dictFallback (.numExprFilter expr bindings) p negate
      else
        dictFallback (.numExprFilter expr bindings) p negate
  | t => dictFallback t p negate

/-! ## String manipulation of `_maybe_convert_to_prescreen`

The source strips parentheses with `expr.replace("(", "").replace(")", "")`
(single-character replacement by the empty string, i.e. a filter) and splits
on the three-character separator `" & "`. -/

/-- `expr.replace("(", "").replace(")", "")`. -/
def stripParens (s : List Char) : List Char :=
  (s.filter (fun c => c ≠ '(')).filter (fun c => c ≠ ')')

/-- Python `s.split(" & ")`: leftmost-first split on the separator. -/
def splitAmp : List Char → List (List Char)
  | [] => [[]]
  | c :: rest =>
    if c = ' ' ∧ rest.take 2 = ['&', ' '] then
      [] :: splitAmp (rest.drop 2)
    else
      match splitAmp rest with
      | [] => [[c]]
      | t :: ts => (c :: t) :: ts
termination_by l => l.length
decreasing_by
  · simp only [List.length_cons, List.length_drop]
    omega
  · simp only [List.length_cons]
    omega

/-- `tok.replace("~", "")`. -/
def stripTilde (tok : List Char) : List Char :=
  tok.filter (fun c => c ≠ '~')

/-- Join tokens with the `" & "` separator (the form a parenthesis-stripped
AND expression takes). -/
def joinAmp : List (List Char) → List Char
  | [] => []
  | [t] => t
  | t :: t2 :: rest => t ++ " & ".data ++ joinAmp (t2 :: rest)

/-- Python `set(a) == set(b)` on string lists: extensional equality. -/
def sameElems (a b : List (List Char)) : Bool :=
  a.all (fun x => b.contains x) && b.all (fun x => a.contains x)

/-! ## The pipeline container state -/

/-- The mutable state of a `Pipeline`: `_columns` (a dict embedded as an
insertion-ordered association list with unique keys), `_screen`,
`_prescreen` and `_domain`. -/
structure PipeState where
  columns : List (String × PTerm)
  screen : Option PTerm
  prescreen : Option Prescreen
  domain : PDomain

/-- `name in columns`. -/
def dictContains (cols : List (String × PTerm)) (name : String) : Bool :=
  cols.any (fun kv => kv.1 == name)

/-- `columns.get(name)`: first value stored under a key. -/
def dictGet (cols : List (String × PTerm)) (name : String) : Option PTerm :=
  match cols with
  | [] => none
  | (k, v) :: rest => if k == name then some v else dictGet rest name

/-- `columns.pop(name)`'s effect on the dict (all entries for `name`
removed; keys are unique so at most one). -/
def dictPop (cols : List (String × PTerm)) (name : String) :
    List (String × PTerm) :=
  cols.filter (fun kv => kv.1 != name)

/-- `columns[name] = term`: replace in place when present, else append. -/
def dictSet (cols : List (String × PTerm)) (name : String) (term : PTerm) :
    List (String × PTerm) :=
  if dictContains cols name then
    cols.map (fun kv => if kv.1 == name then (name, term) else kv)
  else
    cols ++ [(name, term)]

/-- The AND-of-terms loop body of `_maybe_convert_to_prescreen`, with
Python's for/else semantics: `none` means the loop broke (some term was not
convertible, `if not prescreen: break`), `some p` means it completed.  The
binding lookup cannot fail under the set-equality guard (the source would
raise a KeyError otherwise). -/
def convertAndTerms (bindings : List (List Char × PTerm)) :
    List (List Char) → Prescreen → Option Prescreen
  | [], p => some p
  | tok :: rest, p =>
    let negate := tok.contains '~'
    let key := stripTilde tok
    match lookupKey key bindings with
    | none => none
    | some t =>
      match termToPrescreenDict t (some p) negate with
      | none => none
      | some q =>
          if q.isEmptyDict then none
          else convertAndTerms bindings rest q

/-- `Pipeline._maybe_convert_to_prescreen`: first try the screen as a single
prescreenable term; otherwise, for a `NumExprFilter`, strip parentheses,
split on `" & "`, check that the tokens (ignoring `~`) are exactly the
binding keys, and convert every conjunct — installing the prescreen and
clearing the screen on success, leaving the state untouched otherwise. -/
def maybeConvertToPrescreen (st : PipeState) (screen : PTerm) : PipeState :=
  match termToPrescreenDict screen none false with
  | some p => { st with prescreen := some p, screen := none }
  | none =>
    match screen with
    | .numExprFilter expr bindings =>
      let toks := splitAmp (stripParens expr)
      if sameElems (toks.map stripTilde) (bindings.map Prod.fst) then
        match convertAndTerms bindings toks Prescreen.empty with
        | some p => { st with prescreen := some p, screen := none }
        | none => st
      else
        st
    | _ => st

/-! ## Pipeline mutations -/

/-- Message of `UnsupportedPipelineOutput`.  Modelled from the spec: the
error class lives in zipline/errors.py (not under src/); the claims depend
only on its kind (a shape violation), not its wording. -/
def unsupportedOutputMsg (name : String) (term : PTerm) : String :=
  "Cannot add column " ++ "\x27" ++ name ++ "\x27 with term " ++ term.render ++
    ": 1-dimensional terms are not supported as pipeline columns."

/-- `Pipeline.validate_column`: rejects one-dimensional terms. -/
def validate_column (name : String) (term : PTerm) : Option PyErr :=
  if term.ndim == 1 then
    some ⟨.unsupportedPipelineOutput, unsupportedOutputMsg name term⟩
  else
    none

/-- Message of the KeyError raised by `Pipeline.add` on a duplicate name. -/
def duplicateColumnMsg (name : String) : String :=
  "Column \x27" ++ name ++ "\x27 already exists."

/-- Message of the TypeError raised by `Pipeline.add` on a non-computable
term. -/
def notComputableMsg (term : PTerm) : String :=
  term.render ++ " is not a valid pipeline column. Did you mean to " ++
    "append \x27.latest\x27?"

/-- The tail of `Pipeline.add` after the duplicate handling: the
ComputableTerm check, then the dict assignment. -/
def addTail (st : PipeState) (term : PTerm) (name : String) :
    PipeState × Option PyErr :=
  if !term.isComputable then
    (st, some ⟨.typeError, notComputableMsg term⟩)
  else
    ({ st with columns := dictSet st.columns name term }, none)

/-- `Pipeline.add(term, name, overwrite)`: `validate_column` first; on a
duplicate name, either `self.remove(name)` (overwrite) or a KeyError; then
the ComputableTerm check and the insertion.  The returned state is the
post-call state even when an error is raised (Python mutations performed
before the raise persist). -/
def PipeState.add (st : PipeState) (term : PTerm) (name : String)
    (overwrite : Bool) : PipeState × Option PyErr :=
  match validate_column name term with
  | some e => (st, some e)
  | none =>
    if dictContains st.columns name then
      if overwrite then
        addTail { st with columns := dictPop st.columns name } term name
      else
        (st, some ⟨.keyError, duplicateColumnMsg name⟩)
    else
      addTail st term name

/-- `Pipeline.remove(name)`: `self.columns.pop(name)`, raising a KeyError on
an absent key (the KeyError's message is the key). -/
def PipeState.removeOp (st : PipeState) (name : String) :
    PipeState × Except PyErr PTerm :=
  match dictGet st.columns name with
  | some t => ({ st with columns := dictPop st.columns name }, .ok t)
  | none => (st, .error ⟨.keyError, name⟩)

/-- Message of the ValueError raised by `Pipeline.set_screen` when a screen
or prescreen is already active and overwrite was not requested. -/
def setScreenExistsMsg : String :=
  "set_screen() called with overwrite=False and screen already set.\n" ++
    "If you want to apply multiple filters as a screen use " ++
    "set_screen(filter1 & filter2 & ...).\n" ++
    "If you want to replace the previous screen with a new one, " ++
    "use set_screen(new_filter, overwrite=True)."

/-- `Pipeline.set_screen(screen, overwrite)`. -/
def PipeState.setScreen (st : PipeState) (screen : PTerm) (overwrite : Bool) :
    PipeState × Option PyErr :=
  if (st.screen.isSome || st.prescreen.isSome) && !overwrite then
    (st, some ⟨.valueError, setScreenExistsMsg⟩)
  else
    let st1 := { st with screen := some screen, prescreen := none }
    (maybeConvertToPrescreen st1 screen, none)

/-- Message of the TypeError raised by `Pipeline.__init__` on a column that
is not a ComputableTerm. -/
def initBadColumnMsg (name : String) (term : PTerm) : String :=
  "Column \x27" ++ name ++ "\x27 contains an invalid pipeline term (" ++
    term.render ++ "). Did you mean to append \x27.latest\x27?"

/-- The per-column validation loop of `Pipeline.__init__`, returning the
first error. -/
def columnsError : List (String × PTerm) → Option PyErr
  | [] => none
  | (name, term) :: rest =>
    match validate_column name term with
    | some e => some e
    | none =>
      if !term.isComputable then
        some ⟨.typeError, initBadColumnMsg name term⟩
      else
        columnsError rest

/-- `Pipeline.__init__(columns, screen, domain)`: validate the columns, set
`_prescreen = None` and `_screen = screen`, and attempt prescreen conversion
when a screen was given (Filters are always truthy). -/
def pipelineInit (columns : List (String × PTerm)) (screen : Option PTerm)
    (domain : PDomain) : Except PyErr PipeState :=
  match columnsError columns with
  | some e => .error e
  | none =>
    let st : PipeState := ⟨columns, screen, none, domain⟩
    match screen with
    | some s => .ok (maybeConvertToPrescreen st s)
    | none => .ok st

/-- The screen/prescreen exclusivity invariant: at most one of the two is
set. -/
def screenExclusive (st : PipeState) : Prop :=
  ¬(st.screen.isSome = true ∧ st.prescreen.isSome = true)

/-- The pipeline states reachable through the public lifecycle: constructed
by `__init__` and mutated by any sequence of `add` / `remove` / `set_screen`
calls (including failing ones, whose partial mutations persist). -/
inductive Reach : PipeState → Prop
  | init (columns : List (String × PTerm)) (screen : Option PTerm)
      (domain : PDomain) (st : PipeState) :
      pipelineInit columns screen domain = .ok st → Reach st
  | addStep (st : PipeState) (term : PTerm) (name : String) (ow : Bool) :
      Reach st → Reach (st.add term name ow).1
  | removeStep (st : PipeState) (name : String) :
      Reach st → Reach (st.removeOp name).1
  | setScreenStep (st : PipeState) (s : PTerm) (ow : Bool) :
      Reach st → Reach (st.setScreen s ow).1

/-! ## The screen-expression builder

Modelled from the spec: screens are boolean combinations (negation,
conjunction, disjunction) of filter leaves (spec section 4.2); the builders
live in zipline/pipeline/filters/filter.py and expression.py, which are not
under src/.  A combination is represented by a `NumExprFilter` whose
expression string names its bindings `x_0, x_1, ...` in order; a negated
plain filter compiles to `~x_0`, a negated subexpression to `~(...)`, and
binary combinations parenthesize both operands.  The float-column isnull
idiom `column.latest != column.latest` compiles to `x_0 != x_0`. -/

/-- Decimal digit to character. -/
def digitChar (d : Nat) : Char :=
  if d = 0 then '0' else if d = 1 then '1' else if d = 2 then '2'
  else if d = 3 then '3' else if d = 4 then '4' else if d = 5 then '5'
  else if d = 6 then '6' else if d = 7 then '7' else if d = 8 then '8'
  else '9'

/-- Character to decimal digit (left inverse of `digitChar` below 10). -/
def charToDigit (c : Char) : Nat :=
  if c = '0' then 0 else if c = '1' then 1 else if c = '2' then 2
  else if c = '3' then 3 else if c = '4' then 4 else if c = '5' then 5
  else if c = '6' then 6 else if c = '7' then 7 else if c = '8' then 8
  else 9

/-- Decimal digits of a natural number, most significant first. -/
def decChars (n : Nat) : List Char :=
  if _h : n < 10 then [digitChar n]
  else decChars (n / 10) ++ [digitChar (n % 10)]
termination_by n
decreasing_by
  exact Nat.div_lt_self (by omega) (by omega)

/-- Reassemble a number from digit characters (for injectivity proofs). -/
def decVal (cs : List Char) : Nat :=
  cs.foldl (fun a c => 10 * a + charToDigit c) 0

/-- The binding name `"x_%d" % n`. -/
def varName (n : Nat) : List Char := 'x' :: '_' :: decChars n

/-- Abstract syntax of the screen expressions users build: plain filter
leaves, the float-column `!=`-itself idiom, `~`, `&` and `|`. -/
inductive FilterAST
  | leaf (t : PTerm)
  | selfNotEq (col : BoundCol)
  | fneg (e : FilterAST)
  | fand (a b : FilterAST)
  | fior (a b : FilterAST)

/-- Compile an expression to (expression string, bindings, next index).
Modelled from the spec (see the section header): the expression machinery is
external to src/. -/
def compileAux : FilterAST → Nat → List Char × List (List Char × PTerm) × Nat
  | .leaf t, n => (varName n, [(varName n, t)], n + 1)
  | .selfNotEq col, n =>
      (varName n ++ " != ".data ++ varName n,
       [(varName n, .latestFactor col)], n + 1)
  | .fneg e, n =>
      let r := compileAux e n
      match e with
      | .leaf _ => ('~' :: r.1, r.2.1, r.2.2)
      | _ => ('~' :: '(' :: (r.1 ++ [')']), r.2.1, r.2.2)
  | .fand a b, n =>
      let ra := compileAux a n
      let rb := compileAux b ra.2.2
      ('(' :: (ra.1 ++ ") & (".data ++ rb.1 ++ [')']),
       ra.2.1 ++ rb.2.1, rb.2.2)
  | .fior a b, n =>
      let ra := compileAux a n
      let rb := compileAux b ra.2.2
      ('(' :: (ra.1 ++ ") | (".data ++ rb.1 ++ [')']),
       ra.2.1 ++ rb.2.1, rb.2.2)

/-- The screen term a user-built expression denotes: a plain leaf stays a
plain term, anything composite becomes a `NumExprFilter`. -/
def compileTop (e : FilterAST) : PTerm :=
  match e with
  | .leaf t => t
  | _ =>
    let r := compileAux e 0
    .numExprFilter r.1 r.2.1

/-- Does the expression contain a disjunction? -/
def hasOr : FilterAST → Bool
  | .fior _ _ => true
  | .fneg e => hasOr e
  | .fand a b => hasOr a || hasOr b
  | _ => false

/-! ## AND-trees of conjuncts (for the conjunction-rule claim) -/

/-- One conjunct of an AND screen: a plain leaf, a negated plain leaf, or
the float-column null idiom. -/
inductive Conjunct
  | cpos (t : PTerm)
  | cneg (t : PTerm)
  | cnull (col : BoundCol)

def Conjunct.toAST : Conjunct → FilterAST
  | .cpos t => .leaf t
  | .cneg t => .fneg (.leaf t)
  | .cnull col => .selfNotEq col

/-- The term bound for this conjunct in the compiled NumExprFilter. -/
def Conjunct.term : Conjunct → PTerm
  | .cpos t => t
  | .cneg t => t
  | .cnull col => .latestFactor col

/-- The token this conjunct contributes to the parenthesis-stripped
expression string at binding index `n`. -/
def Conjunct.token (c : Conjunct) (n : Nat) : List Char :=
  match c with
  | .cpos _ => varName n
  | .cneg _ => '~' :: varName n
  | .cnull _ => varName n ++ " != ".data ++ varName n

/-- An AND-combination of two or more conjuncts with arbitrary
parenthesization (tree shape). -/
inductive AndTree
  | leaf (c : Conjunct)
  | node (l r : AndTree)

def AndTree.toAST : AndTree → FilterAST
  | .leaf c => c.toAST
  | .node l r => .fand l.toAST r.toAST

def AndTree.conjuncts : AndTree → List Conjunct
  | .leaf c => [c]
  | .node l r => l.conjuncts ++ r.conjuncts

/-- The token list of a conjunct list starting at binding index `n`. -/
def conjTokens : List Conjunct → Nat → List (List Char)
  | [], _ => []
  | c :: cs, n => c.token n :: conjTokens cs (n + 1)

/-- The bindings of a conjunct list starting at binding index `n`. -/
def conjBinds : List Conjunct → Nat → List (List Char × PTerm)
  | [], _ => []
  | c :: cs, n => (varName n, c.term) :: conjBinds cs (n + 1)

/-- A conjunct converts in the AND loop of `_maybe_convert_to_prescreen`:
for a (possibly negated) plain leaf, `_term_to_prescreen_dict` succeeds on
the bound term with the token's negation flag; a `cnull` conjunct never
converts there, because its token `"x_i != x_i"` can never equal a binding
key, so the code abandons the whole AND attempt. -/
def conjunctConverts : Conjunct → Bool
  | .cpos t => (termToPrescreenDict t none false).isSome
  | .cneg t => (termToPrescreenDict t none true).isSome
  | .cnull _ => false

/-! ## Row-level evaluation semantics

Modelled from the spec: the engine evaluating screens and the loader
consuming prescreens are external collaborators; both are modelled over one
asset's securities-master row.  Per the spec's Coded String Array invariant,
a missing (null) value matches no value predicate — on either polarity — and
only the null checks observe it. -/

/-- One asset's securities-master row: zipline sid, real sid, and the
metadata fields (`none` = null). -/
structure AssetRow where
  sid : Int
  realSid : String
  fields : List (String × Option PValue)
deriving DecidableEq, Repr

def AssetRow.fieldVal (a : AssetRow) (f : String) : Option PValue :=
  (List.lookup f a.fields).join

/-- Substring test on character lists. -/
def hasSubstr (pat : List Char) : List Char → Bool
  | [] => pat.isPrefixOf []
  | c :: rest => pat.isPrefixOf (c :: rest) || hasSubstr pat rest

/-- Shared string-operator semantics used by both the screen side and the
prescreen side (`match` is modelled for literal patterns as an anchored
prefix test, as `re.match` anchors at the start). -/
def strOpMatch (op : String) (pat : String) (s : String) : Bool :=
  if op == "contains" then hasSubstr pat.data s.data
  else if op == "startswith" then pat.isPrefixOf s
  else if op == "endswith" then pat.data.reverse.isPrefixOf s.data.reverse
  else if op == "match" then pat.isPrefixOf s
  else false

/-- Modelled from the spec: evaluation of a leaf screen term on one asset. -/
def evalLeafTerm (a : AssetRow) : PTerm → Bool
  | .singleAsset sid => a.sid == sid
  | .staticAssets sids => sids.contains a.sid
  | .staticSids sids => sids.contains a.realSid
  | .staticUniverse sids => sids.contains a.realSid
  | .latestFilter col => a.fieldVal col.name == some (.pbool true)
  | .arrayPredicate (.latestClassifier col) opName opargs =>
      let v := a.fieldVal col.name
      let arg0 := opargs.headD (.aval .pnone)
      if opName == "eq" then v == some arg0.asValue
      else if opName == "ne" then
        match v with
        | some w => w != arg0.asValue
        | none => false
      else if opName == "isin" then
        match v with
        | some w => arg0.asList.contains w
        | none => false
      else
        match v, arg0.asValue with
        | some (.pstr s), .pstr pat =>
            if opName == "has_substring" then strOpMatch "contains" pat s
            else if opName == "startswith" then strOpMatch "startswith" pat s
            else if opName == "endswith" then strOpMatch "endswith" pat s
            else if opName == "matches" then strOpMatch "match" pat s
            else false
        | _, _ => false
  | .nullFilter inp =>
      match inp with
      | .latestClassifier col | .latestFactor col =>
          (a.fieldVal col.name).isNone
      | _ => false
  | .notNullFilter inp =>
      match inp with
      | .latestClassifier col | .latestFactor col =>
          (a.fieldVal col.name).isSome
      | _ => false
  | _ => false

/-- Modelled from the spec: evaluation of a screen expression on one asset. -/
def evalAST (a : AssetRow) : FilterAST → Bool
  | .leaf t => evalLeafTerm a t
  | .selfNotEq col => (a.fieldVal col.name).isNone
  | .fneg e => !(evalAST a e)
  | .fand x y => evalAST a x && evalAST a y
  | .fior x y => evalAST a x || evalAST a y

/-- Modelled from the spec: the loader's evaluation of one prescreen field
predicate on one asset. -/
def evalFielddef (a : AssetRow) (fd : Fielddef) : Bool :=
  let v := a.fieldVal fd.field
  if fd.op == "isnull" then
    if fd.negate then v.isSome else v.isNone
  else
    let base :=
      if fd.op == "eq" then
        match v, fd.values with
        | some w, .vlist vs => vs.contains w
        | _, _ => false
      else
        match v, fd.values with
        | some (.pstr s), .vraw (.pstr pat) => strOpMatch fd.op pat s
        | _, _ => false
    if fd.negate then v.isSome && !base
    else base

/-- Modelled from the spec: the loader applies a prescreen as a pure
restriction — an asset passes iff it is in the sid sets (when present) and
satisfies every field predicate. -/
def evalPrescreen (p : Prescreen) (a : AssetRow) : Bool :=
  (match p.sids with | some l => l.contains a.sid | none => true) &&
  (match p.realSids with | some l => l.contains a.realSid | none => true) &&
  (match p.fields with | some fds => fds.all (evalFielddef a) | none => true)

/-! ## Concrete instances used by witnesses and counterexamples -/

/-- The screen `~StaticAssets([5])`: negation of a static sid set. -/
def c1Screen : FilterAST := .fneg (.leaf (.staticAssets [5]))

/-- A pipeline state whose screen is `~StaticAssets([5])`, as `set_screen`
leaves it immediately before the conversion attempt. -/
def c1State : PipeState := ⟨[], some (compileTop c1Screen), none, .generic⟩

/-- An asset with zipline sid 5 (a member of the static set). -/
def c1Asset : AssetRow := ⟨5, "FIBBG000B9XRY4", []⟩

/-- An example SecuritiesMaster boolean column read as a filter. -/
def etfLatest : PTerm := .latestFilter ⟨"SecuritiesMaster", "Etf"⟩

/-- A pipeline state with one column, used by container witnesses. -/
def exampleState : PipeState :=
  ⟨[("etf", etfLatest)], none, none, .generic⟩

/-- A one-dimensional, non-computable term (such as `AssetExists()`). -/
def oneDimTerm : PTerm := .otherTerm "AssetExists" 1 false

/-- A two-dimensional term that is not a ComputableTerm (such as a raw
`BoundColumn`). -/
def rawColumnTerm : PTerm := .otherTerm "BoundColumn" 2 false

/-! # Theorems -/

/-! ## Association-list (Python dict) lemmas -/

theorem dictPop_cons_ne (kv : String × PTerm) (rest : List (String × PTerm))
    (name : String) (h : kv.1 ≠ name) :
    dictPop (kv :: rest) name = kv :: dictPop rest name := by
  have hb : (kv.1 != name) = true := bne_iff_ne.mpr h
  simp [dictPop, List.filter_cons, hb]

theorem dictPop_cons_eq (kv : String × PTerm) (rest : List (String × PTerm))
    (name : String) (h : kv.1 = name) :
    dictPop (kv :: rest) name = dictPop rest name := by
  have hb : (kv.1 != name) = false := by
    simp [bne, h]
  simp [dictPop, List.filter_cons, hb]

theorem dictGet_append (name : String) (l1 l2 : List (String × PTerm)) :
    dictGet (l1 ++ l2) name =
      match dictGet l1 name with
      | some v => some v
      | none => dictGet l2 name := by
  induction l1 with
  | nil => rfl
  | cons kv rest ih =>
    by_cases h : kv.1 = name
    · have hb : (kv.1 == name) = true := beq_iff_eq.mpr h
      cases kv
      simp_all [dictGet]
    · have hb : (kv.1 == name) = false := beq_eq_false_iff_ne.mpr h
      cases kv
      simp_all [dictGet]

theorem dictGet_dictPop_self (cols : List (String × PTerm)) (name : String) :
    dictGet (dictPop cols name) name = none := by
  induction cols with
  | nil => rfl
  | cons kv rest ih =>
    by_cases h : kv.1 = name
    · rw [dictPop_cons_eq kv rest name h]
      exact ih
    · rw [dictPop_cons_ne kv rest name h]
      have hb : (kv.1 == name) = false := beq_eq_false_iff_ne.mpr h
      cases kv
      simp_all [dictGet]

theorem dictGet_dictPop_ne (cols : List (String × PTerm)) (name other : String)
    (h : other ≠ name) :
    dictGet (dictPop cols name) other = dictGet cols other := by
  induction cols with
  | nil => rfl
  | cons kv rest ih =>
    by_cases hk : kv.1 = name
    · have hb : (kv.1 == other) = false :=
        beq_eq_false_iff_ne.mpr (by rw [hk]; exact (Ne.symm h))
      rw [dictPop_cons_eq kv rest name hk, ih]
      cases kv
      simp_all [dictGet]
    · rw [dictPop_cons_ne kv rest name hk]
      cases kv
      simp_all [dictGet]

theorem dictContains_dictPop (cols : List (String × PTerm)) (name : String) :
    dictContains (dictPop cols name) name = false := by
  induction cols with
  | nil => rfl
  | cons kv rest ih =>
    by_cases h : kv.1 = name
    · rw [dictPop_cons_eq kv rest name h]
      exact ih
    · rw [dictPop_cons_ne kv rest name h]
      have hb : (kv.1 == name) = false := beq_eq_false_iff_ne.mpr h
      simp [dictContains, hb]
      simpa [dictContains] using ih

/-! ## C4: domain resolution -/

/-- Claim C4: `Pipeline.domain(default)` resolves as a three-way function of
the explicit and the inferred domain: both generic gives the default;
exactly one non-generic gives that one; both non-generic and equal gives
that domain; both non-generic and different fails with a conflict error
whose message names both values. -/
theorem C4_domain_resolution (dflt : PDomain) (s t : String) (hne : s ≠ t) :
    pipelineDomain .generic .generic dflt = .ok dflt ∧
    pipelineDomain (.named s) .generic dflt = .ok (.named s) ∧
    pipelineDomain .generic (.named t) dflt = .ok (.named t) ∧
    pipelineDomain (.named s) (.named s) dflt = .ok (.named s) ∧
    pipelineDomain (.named s) (.named t) dflt =
      .error ⟨.valueError, conflictingDomainsMsg (.named t) (.named s)⟩ := by
  refine ⟨rfl, rfl, rfl, ?_, ?_⟩
  · simp [pipelineDomain]
  · have h1 : (PDomain.named t != PDomain.named s) = true :=
      bne_iff_ne.mpr (by simpa using Ne.symm hne)
    simp [pipelineDomain, h1]

/-- Witness for C4 at concrete domains. -/
theorem C4_domain_resolution_witness :
    ("US_EQUITIES" : String) ≠ "EU_EQUITIES" ∧
    (pipelineDomain .generic .generic (.named "JP_EQUITIES")
        = .ok (.named "JP_EQUITIES") ∧
     pipelineDomain (.named "US_EQUITIES") .generic (.named "JP_EQUITIES")
        = .ok (.named "US_EQUITIES") ∧
     pipelineDomain .generic (.named "EU_EQUITIES") (.named "JP_EQUITIES")
        = .ok (.named "EU_EQUITIES") ∧
     pipelineDomain (.named "US_EQUITIES") (.named "US_EQUITIES")
        (.named "JP_EQUITIES") = .ok (.named "US_EQUITIES") ∧
     pipelineDomain (.named "US_EQUITIES") (.named "EU_EQUITIES")
        (.named "JP_EQUITIES") =
       .error ⟨.valueError,
         conflictingDomainsMsg (.named "EU_EQUITIES") (.named "US_EQUITIES")⟩) :=
  ⟨by decide,
   C4_domain_resolution (.named "JP_EQUITIES") "US_EQUITIES" "EU_EQUITIES"
     (by decide)⟩

/-! ## C7: eq against the missing value -/

/-- Claim C7: for every Classifier `c`, comparing against `c.missing_value`
with `eq` fails with an invalid-value (ValueError) error — the guard runs
before the dtype dispatch, so this holds for categorical and numeric-coded
dtypes alike, and no Filter is ever returned. -/
theorem C7_eq_missing_value_fails (c : Classifier) :
    c.eq c.missing_value =
      .error ⟨.valueError, eqMissingMsg c.missing_value c.typename⟩ := by
  simp [Classifier.eq]

/-! ## C6: shift window length -/

/-- Claim C6: `Classifier.shift(periods)` constructs a node with
`window_length = periods + 1` (so `shift(1)` has window length 2), and
window-length checking is deferred to validation: `shift(0)` succeeds at
construction but its validation fails with a ValueError quoting the
offending window length 1. -/
theorem C6_shift_window_length (c : Classifier) (periods : Int) :
    (c.shift periods).window_length = periods + 1 ∧
    (c.shift 1).window_length = 2 ∧
    (c.shift 0).validate =
      .error ⟨.valueError,
        "\x27Shift\x27 expected a window lengthof at least 2, but was given 1. To shift one period, use a window length of 2."⟩ ∧
    (c.shift 1).validate = .ok () :=
  ⟨rfl, rfl, rfl, rfl⟩

/-! ## C5: add with a duplicate name -/

/-- Claim C5 counterexample: with a one-dimensional term and a name that is
already a column, `add(term, name, overwrite=False)` fails with the shape
error of `validate_column`, not with the claimed duplicate-name error (the
two-dimensionality check runs before the duplicate check). -/
theorem C5_counterexample :
    (exampleState.add oneDimTerm "etf" false).2 =
      some ⟨.unsupportedPipelineOutput, unsupportedOutputMsg "etf" oneDimTerm⟩ ∧
    ErrKind.unsupportedPipelineOutput ≠ ErrKind.keyError ∧
    (exampleState.add oneDimTerm "etf" false).1.columns =
      exampleState.columns :=
  ⟨rfl, by decide, rfl⟩

/-- Claim C5 (amended): for every pipeline, every name already present and
every term that passes the two-dimensionality check,
`add(term, name, overwrite=False)` fails with the duplicate-name KeyError
and leaves the state (including the existing entry) unchanged; with
`overwrite=True` and a valid ComputableTerm it replaces the entry for that
name and leaves every other entry of the mapping unchanged. -/
theorem C5_add_duplicate (st : PipeState) (term : PTerm) (name : String)
    (hname : dictContains st.columns name = true) (hnd : term.ndim ≠ 1) :
    st.add term name false = (st, some ⟨.keyError, duplicateColumnMsg name⟩) ∧
    (term.isComputable = true →
      (st.add term name true).2 = none ∧
      dictGet (st.add term name true).1.columns name = some term ∧
      ∀ other, other ≠ name →
        dictGet (st.add term name true).1.columns other =
          dictGet st.columns other) := by
  have hv : validate_column name term = none := by
    simp [validate_column, hnd]
  constructor
  · simp [PipeState.add, hv, hname]
  · intro hc
    have hadd : st.add term name true =
        ({ st with columns := dictSet (dictPop st.columns name) name term },
         none) := by
      simp [PipeState.add, hv, hname, addTail, hc]
    have hset : dictSet (dictPop st.columns name) name term =
        dictPop st.columns name ++ [(name, term)] := by
      simp [dictSet, dictContains_dictPop]
    refine ⟨by rw [hadd], ?_, ?_⟩
    · rw [hadd]
      show dictGet (dictSet (dictPop st.columns name) name term) name
          = some term
      rw [hset, dictGet_append, dictGet_dictPop_self]
      have hb : (name == name) = true := beq_iff_eq.mpr rfl
      simp [dictGet, hb]
    · intro other hother
      rw [hadd]
      show dictGet (dictSet (dictPop st.columns name) name term) other
          = dictGet st.columns other
      rw [hset, dictGet_append]
      have hb : (name == other) = false :=
        beq_eq_false_iff_ne.mpr (Ne.symm hother)
      rw [dictGet_dictPop_ne st.columns name other hother]
      cases h : dictGet st.columns other with
      | some v => rfl
      | none => simp [dictGet, hb]

/-- Witness for C5 (amended) at a concrete pipeline. -/
theorem C5_add_duplicate_witness :
    (dictContains exampleState.columns "etf" = true ∧
       PTerm.ndim (.latestFilter ⟨"SecuritiesMaster", "Delisted"⟩) ≠ 1) ∧
    (exampleState.add (.latestFilter ⟨"SecuritiesMaster", "Delisted"⟩) "etf"
        false =
      (exampleState, some ⟨.keyError, duplicateColumnMsg "etf"⟩) ∧
    (PTerm.isComputable (.latestFilter ⟨"SecuritiesMaster", "Delisted"⟩) = true →
      (exampleState.add (.latestFilter ⟨"SecuritiesMaster", "Delisted"⟩) "etf"
          true).2 = none ∧
      dictGet
          (exampleState.add (.latestFilter ⟨"SecuritiesMaster", "Delisted"⟩)
            "etf" true).1.columns "etf" =
        some (.latestFilter ⟨"SecuritiesMaster", "Delisted"⟩) ∧
      ∀ other, other ≠ "etf" →
        dictGet
            (exampleState.add (.latestFilter ⟨"SecuritiesMaster", "Delisted"⟩)
              "etf" true).1.columns other =
          dictGet exampleState.columns other)) :=
  ⟨⟨rfl, by decide⟩,
   C5_add_duplicate exampleState (.latestFilter ⟨"SecuritiesMaster", "Delisted"⟩)
     "etf" rfl (by decide)⟩

/-! ## C10: non-atomic failure of add with overwrite -/

/-- Claim C10: when a column named `name` exists and `add` is called with
`overwrite=True` and a term that passes the two-dimensionality check but is
not a ComputableTerm, the existing column is removed before the TypeError is
raised: after the failed call the pipeline no longer has a column `name`. -/
theorem C10_add_overwrite_not_atomic (st : PipeState) (term : PTerm)
    (name : String) (hname : dictContains st.columns name = true)
    (hnd : term.ndim ≠ 1) (hnc : term.isComputable = false) :
    st.add term name true =
      ({ st with columns := dictPop st.columns name },
       some ⟨.typeError, notComputableMsg term⟩) ∧
    dictGet (st.add term name true).1.columns name = none := by
  have hv : validate_column name term = none := by
    simp [validate_column, hnd]
  have hadd : st.add term name true =
      ({ st with columns := dictPop st.columns name },
       some ⟨.typeError, notComputableMsg term⟩) := by
    simp [PipeState.add, hv, hname, addTail, hnc]
  exact ⟨hadd, by rw [hadd]; exact dictGet_dictPop_self st.columns name⟩

/-- Witness for C10 at a concrete pipeline. -/
theorem C10_add_overwrite_not_atomic_witness :
    (dictContains exampleState.columns "etf" = true ∧
       rawColumnTerm.ndim ≠ 1 ∧ rawColumnTerm.isComputable = false) ∧
    (exampleState.add rawColumnTerm "etf" true =
       ({ exampleState with columns := dictPop exampleState.columns "etf" },
        some ⟨.typeError, notComputableMsg rawColumnTerm⟩) ∧
     dictGet (exampleState.add rawColumnTerm "etf" true).1.columns "etf" =
       none) :=
  ⟨⟨rfl, by decide, rfl⟩,
   C10_add_overwrite_not_atomic exampleState rawColumnTerm "etf" rfl
     (by decide) rfl⟩

/-! ## C8: relabel -/

/-- Claim C8 counterexample: on an integer-dtype classifier, `relabel` fails
with the dtype-mismatch TypeError produced by the `string_classifiers_only`
restriction — not with a "not implemented" error as claimed. -/
theorem C8_counterexample :
    Classifier.relabel ⟨"Quantiles", .int64, .pint (-1)⟩ id =
      .error ⟨.typeError, stringClassifiersOnlyMsg "relabel" .int64⟩ ∧
    ErrKind.typeError ≠ ErrKind.notImplementedError :=
  ⟨rfl, by decide⟩

theorem zipWith_mask_getElem? (mask : List Bool) (codes : List (Option Nat))
    (i : Nat) :
    (List.zipWith (fun m code => if m then code else none) mask codes)[i]? =
      match mask[i]?, codes[i]? with
      | some m, some c => some (if m then c else none)
      | _, _ => none := by
  induction mask generalizing codes i with
  | nil => simp
  | cons m ms ih =>
    cases codes with
    | nil => simp
    | cons c cs =>
      cases i with
      | zero => simp [List.zipWith]
      | succ j => simpa [List.zipWith] using ih cs j

theorem mask_getD_true (mask : List Bool) (i : Nat)
    (h : mask.getD i false = true) : mask[i]? = some true := by
  induction mask generalizing i with
  | nil => simp at h
  | cons m ms ih =>
    cases i with
    | zero => simpa using h
    | succ j =>
      simp only [List.getD_cons_succ] at h
      simpa using ih j h

/-- Claim C8 (amended): on a numeric-coded classifier, `relabel` fails with
the dtype-mismatch TypeError of the `string_classifiers_only` restriction
naming the method and the received dtype (the "not implemented" error exists
only in `Relabel._compute`'s int-data branch, unreachable through
`relabel`); on a categorical classifier `relabel` succeeds, and the compute
step applies the relabeling function exactly once per distinct category
value — the category table is rewritten entrywise, so the number of
applications equals the number of distinct categories, not the number of
cells — while mask-passing cells are relabeled consistently and missing
cells stay missing. -/
theorem C8_relabel_dispatch (typename : String) (mv : PValue)
    (fn : String → String) (la : LabelArray) (mask : List Bool) :
    Classifier.relabel ⟨typename, .int64, mv⟩ fn =
      .error ⟨.typeError, stringClassifiersOnlyMsg "relabel" .int64⟩ ∧
    (∃ node, Classifier.relabel ⟨typename, .categorical, mv⟩ fn = .ok node) ∧
    (∃ out, relabelCompute fn (.labelArr la) mask = .ok out ∧
       out.categories = la.categories.map fn ∧
       out.categories.length = la.categories.length ∧
       (∀ i, mask.getD i false = true →
          out.cellValue i = (la.cellValue i).map fn) ∧
       (∀ i, la.codes[i]? = some none → out.cellValue i = none)) ∧
    (∀ xs : List Int, relabelCompute fn (.intArr xs) mask =
       .error ⟨.notImplementedError,
         "Relabeling is not currently supported for int-dtype classifiers."⟩) := by
  refine ⟨rfl, ⟨⟨⟨typename, .categorical, mv⟩, fn⟩, rfl⟩, ?_, fun xs => rfl⟩
  refine ⟨_, rfl, rfl, by simp [LabelArray.mapCats], ?_, ?_⟩
  · intro i hm
    have hm' := mask_getD_true mask i hm
    unfold LabelArray.cellValue
    simp only [LabelArray.mapCats]
    rw [zipWith_mask_getElem?, hm']
    cases hcode : la.codes[i]? with
    | none => simp
    | some oc =>
      cases oc with
      | none => simp
      | some code =>
        simp only [if_true, List.getElem?_map]
  · intro i hmiss
    unfold LabelArray.cellValue
    simp only [LabelArray.mapCats]
    rw [zipWith_mask_getElem?, hmiss]
    cases mask[i]? with
    | none => simp
    | some m => cases m <;> simp

/-- Witness for C8 (amended) at a concrete classifier, label array and mask. -/
theorem C8_relabel_dispatch_witness :
    Classifier.relabel ⟨"SecType", .int64, .pint (-1)⟩ id =
      .error ⟨.typeError, stringClassifiersOnlyMsg "relabel" .int64⟩ ∧
    (∃ node, Classifier.relabel ⟨"SecType", .categorical, .pint (-1)⟩ id
        = .ok node) ∧
    (∃ out, relabelCompute id
        (.labelArr ⟨["STK", "ETF"], [some 0, none, some 1]⟩)
        [true, true, true] = .ok out ∧
       out.categories = (⟨["STK", "ETF"], [some 0, none, some 1]⟩ :
          LabelArray).categories.map id ∧
       out.categories.length = (⟨["STK", "ETF"], [some 0, none, some 1]⟩ :
          LabelArray).categories.length ∧
       (∀ i, List.getD [true, true, true] i false = true →
          out.cellValue i =
            ((⟨["STK", "ETF"], [some 0, none, some 1]⟩ :
              LabelArray).cellValue i).map id) ∧
       (∀ i, (⟨["STK", "ETF"], [some 0, none, some 1]⟩ :
            LabelArray).codes[i]? = some none → out.cellValue i = none)) ∧
    (∀ xs : List Int, relabelCompute id (.intArr xs) [true, true, true] =
       .error ⟨.notImplementedError,
         "Relabeling is not currently supported for int-dtype classifiers."⟩) :=
  C8_relabel_dispatch "SecType" (.pint (-1)) id
    ⟨["STK", "ETF"], [some 0, none, some 1]⟩ [true, true, true]

/-! ## C9: isin as a disjunction of eq -/

/-- Claim C9: for every Classifier `c` and finite choice set of hashable
values of the dtype's element type not containing `c.missing_value`,
`c.isin(choices)` is semantically equivalent to the disjunction of
`c.eq(v)` over the choices — a cell matches isin exactly when it matches eq
for some choice — and missing cells never match. -/
theorem C9_isin_eq_disjunction (c : Classifier) (choices : List PValue)
    (cell : Cell) (hmv : c.missing_value ∉ choices)
    (hty : ∀ v ∈ choices, elemTypeOk c.dtype v = true)
    (hcell : cellKindOk c.dtype cell = true) :
    ∃ F, c.isin choices = .ok F ∧
      (∀ v ∈ choices, ∃ G, c.eq v = .ok G) ∧
      evalFilterNode F cell = choices.any (fun v => evalEqAt c v cell) ∧
      (cellIsMissing c cell = true → evalFilterNode F cell = false) := by
  have hmvd : c.missing_value ∉ choices.dedup := fun h => hmv (List.mem_dedup.mp h)
  have hne : ∀ v ∈ choices, v ≠ c.missing_value := by
    intro v hv hvm
    exact hmv (hvm ▸ hv)
  cases hd : c.dtype with
  | int64 =>
    have hpint : ∀ v ∈ choices, ∃ k, v = PValue.pint k := by
      intro v hv
      have h := hty v hv
      rw [hd] at h
      cases v with
      | pint k => exact ⟨k, rfl⟩
      | pstr s => simp [elemTypeOk] at h
      | pbool b => simp [elemTypeOk] at h
      | pnone => simp [elemTypeOk] at h
    have heq : ∀ k : Int, PValue.pint k ∈ choices →
        c.eq (.pint k) = .ok (.numExprEqSelf k) := by
      intro k hk
      unfold Classifier.eq
      rw [if_neg (hne _ hk), hd]
      simp [PValue.isNumber, PValue.toPyInt]
    have hall : choices.dedup.all PValue.isInt = true := by
      rw [List.all_eq_true]
      intro v hv
      obtain ⟨k, rfl⟩ := hpint v (List.mem_dedup.mp hv)
      rfl
    have hisin : c.isin choices =
        .ok (.arrayPred .vecIsElement choices.dedup) := by
      simp [Classifier.isin, hmvd, hd, hall]
    obtain ⟨i, rfl⟩ : ∃ i, cell = Cell.ival i := by
      cases cell with
      | ival i => exact ⟨i, rfl⟩
      | sval v => rw [hd] at hcell; simp [cellKindOk] at hcell
    refine ⟨_, hisin, ?_, ?_, ?_⟩
    · intro v hv
      obtain ⟨k, rfl⟩ := hpint v hv
      exact ⟨_, heq k hv⟩
    · show choices.dedup.contains (.pint i)
          = choices.any fun v => evalEqAt c v (.ival i)
      rw [Bool.eq_iff_iff, List.elem_iff, List.any_eq_true]
      constructor
      · intro hmem
        have hmem' := List.mem_dedup.mp hmem
        refine ⟨.pint i, hmem', ?_⟩
        simp only [evalEqAt]
        rw [heq i hmem']
        simp [evalFilterNode]
      · rintro ⟨v, hv, hev⟩
        obtain ⟨k, rfl⟩ := hpint v hv
        simp only [evalEqAt] at hev
        rw [heq k hv] at hev
        simp [evalFilterNode] at hev
        subst hev
        exact List.mem_dedup.mpr hv
    · intro hmiss
      have hmm : PValue.pint i = c.missing_value := by
        simpa [cellIsMissing] using hmiss
      show choices.dedup.contains (.pint i) = false
      cases h : choices.dedup.contains (.pint i) with
      | false => rfl
      | true => exact absurd (hmm ▸ List.elem_iff.mp h) hmvd
  | categorical =>
    have hpstr : ∀ v ∈ choices, ∃ s, v = PValue.pstr s := by
      intro v hv
      have h := hty v hv
      rw [hd] at h
      cases v with
      | pstr s => exact ⟨s, rfl⟩
      | pint k => simp [elemTypeOk] at h
      | pbool b => simp [elemTypeOk] at h
      | pnone => simp [elemTypeOk] at h
    have heq : ∀ w : String, PValue.pstr w ∈ choices →
        c.eq (.pstr w) = .ok (.arrayPred .opEq [.pstr w]) := by
      intro w hw
      unfold Classifier.eq
      rw [if_neg (hne _ hw), hd]
      simp [PValue.isNumber]
    have hall : choices.dedup.all PValue.isStr = true := by
      rw [List.all_eq_true]
      intro v hv
      obtain ⟨s, rfl⟩ := hpstr v (List.mem_dedup.mp hv)
      rfl
    have hisin : c.isin choices = .ok (.arrayPred .laIsin choices.dedup) := by
      simp [Classifier.isin, hmvd, hd, hall]
    obtain ⟨v0, rfl⟩ : ∃ v0, cell = Cell.sval v0 := by
      cases cell with
      | sval v0 => exact ⟨v0, rfl⟩
      | ival i => rw [hd] at hcell; simp [cellKindOk] at hcell
    refine ⟨_, hisin, ?_, ?_, ?_⟩
    · intro v hv
      obtain ⟨w, rfl⟩ := hpstr v hv
      exact ⟨_, heq w hv⟩
    · cases v0 with
      | none =>
        show false = choices.any fun v => evalEqAt c v (.sval none)
        rw [Bool.eq_iff_iff, List.any_eq_true]
        constructor
        · intro h
          exact absurd h (by simp)
        · rintro ⟨v, hv, hev⟩
          obtain ⟨w, rfl⟩ := hpstr v hv
          simp only [evalEqAt] at hev
          rw [heq w hv] at hev
          simp [evalFilterNode] at hev
      | some s =>
        show choices.dedup.contains (.pstr s)
            = choices.any fun v => evalEqAt c v (.sval (some s))
        rw [Bool.eq_iff_iff, List.elem_iff, List.any_eq_true]
        constructor
        · intro hmem
          have hmem' := List.mem_dedup.mp hmem
          refine ⟨.pstr s, hmem', ?_⟩
          simp only [evalEqAt]
          rw [heq s hmem']
          simp [evalFilterNode]
        · rintro ⟨v, hv, hev⟩
          obtain ⟨w, rfl⟩ := hpstr v hv
          simp only [evalEqAt] at hev
          rw [heq w hv] at hev
          simp [evalFilterNode] at hev
          subst hev
          exact List.mem_dedup.mpr hv
    · intro hmiss
      cases v0 with
      | none => rfl
      | some s =>
        have hmm : PValue.pstr s = c.missing_value := by
          simpa [cellIsMissing] using hmiss
        show choices.dedup.contains (.pstr s) = false
        cases h : choices.dedup.contains (.pstr s) with
        | false => rfl
        | true => exact absurd (hmm ▸ List.elem_iff.mp h) hmvd

/-- Witness for C9 at a concrete categorical classifier and choice set. -/
theorem C9_isin_eq_disjunction_witness :
    ((PValue.pnone ∉ [PValue.pstr "STK", PValue.pstr "ETF"]) ∧
     (∀ v ∈ [PValue.pstr "STK", PValue.pstr "ETF"],
        elemTypeOk CDtype.categorical v = true) ∧
     cellKindOk CDtype.categorical (.sval (some "STK")) = true) ∧
    (∃ F, Classifier.isin ⟨"SecType", .categorical, .pnone⟩
        [PValue.pstr "STK", PValue.pstr "ETF"] = .ok F ∧
      (∀ v ∈ [PValue.pstr "STK", PValue.pstr "ETF"],
         ∃ G, Classifier.eq ⟨"SecType", .categorical, .pnone⟩ v = .ok G) ∧
      evalFilterNode F (.sval (some "STK")) =
        List.any [PValue.pstr "STK", PValue.pstr "ETF"]
          (fun v => evalEqAt ⟨"SecType", .categorical, .pnone⟩ v
            (.sval (some "STK"))) ∧
      (cellIsMissing ⟨"SecType", .categorical, .pnone⟩ (.sval (some "STK"))
          = true →
        evalFilterNode F (.sval (some "STK")) = false)) :=
  ⟨⟨by decide, by decide, rfl⟩,
   C9_isin_eq_disjunction ⟨"SecType", .categorical, .pnone⟩
     [PValue.pstr "STK", PValue.pstr "ETF"] (.sval (some "STK"))
     (by decide) (by decide) rfl⟩

/-! ## C3: screen/prescreen exclusivity -/

theorem maybeConvert_cases (st : PipeState) (scr : PTerm) :
    maybeConvertToPrescreen st scr = st ∨
    ((maybeConvertToPrescreen st scr).screen = none ∧
     (maybeConvertToPrescreen st scr).prescreen.isSome = true) := by
  unfold maybeConvertToPrescreen
  split
  · right
    exact ⟨rfl, rfl⟩
  · split
    · dsimp only
      split
      · split
        · right
          exact ⟨rfl, rfl⟩
        · left
          rfl
      · left
        rfl
    · left
      rfl

theorem add_preserves_screens (st : PipeState) (term : PTerm) (name : String)
    (ow : Bool) :
    (st.add term name ow).1.screen = st.screen ∧
    (st.add term name ow).1.prescreen = st.prescreen := by
  unfold PipeState.add addTail
  repeat' split
  all_goals exact ⟨rfl, rfl⟩

theorem remove_preserves_screens (st : PipeState) (name : String) :
    (st.removeOp name).1.screen = st.screen ∧
    (st.removeOp name).1.prescreen = st.prescreen := by
  unfold PipeState.removeOp
  split <;> exact ⟨rfl, rfl⟩

/-- Claim C3: after Pipeline construction and after every mutation
(add/remove/set_screen, including the prescreen-conversion attempts that
construction and set_screen trigger), at most one of screen and prescreen
is set: installing a prescreen always clears the screen, and setting a new
screen always clears any previous prescreen. -/
theorem C3_screen_prescreen_exclusive (st : PipeState) (h : Reach st) :
    screenExclusive st := by
  induction h with
  | init columns screen domain st hinit =>
    unfold pipelineInit at hinit
    cases hc : columnsError columns with
    | some e =>
      rw [hc] at hinit
      exact absurd hinit (by simp)
    | none =>
      rw [hc] at hinit
      cases screen with
      | none =>
        injection hinit with h1
        subst h1
        simp [screenExclusive]
      | some s =>
        injection hinit with h1
        subst h1
        rcases maybeConvert_cases ⟨columns, some s, none, domain⟩ s with
          heq | ⟨h1, _⟩
        · rw [heq]
          simp [screenExclusive]
        · simp [screenExclusive, h1]
  | addStep st term name ow _ ih =>
    have hp := add_preserves_screens st term name ow
    unfold screenExclusive at ih ⊢
    rw [hp.1, hp.2]
    exact ih
  | removeStep st name _ ih =>
    have hp := remove_preserves_screens st name
    unfold screenExclusive at ih ⊢
    rw [hp.1, hp.2]
    exact ih
  | setScreenStep st s ow _ ih =>
    unfold PipeState.setScreen
    split
    · exact ih
    · rcases maybeConvert_cases { st with screen := some s, prescreen := none }
        s with heq | ⟨h1, _⟩
      · show screenExclusive
          (maybeConvertToPrescreen { st with screen := some s, prescreen := none } s)
        rw [heq]
        simp [screenExclusive]
      · show screenExclusive
          (maybeConvertToPrescreen { st with screen := some s, prescreen := none } s)
        simp [screenExclusive, h1]

/-- Witness for C3 at a concrete constructed pipeline. -/
theorem C3_screen_prescreen_exclusive_witness :
    screenExclusive ⟨[], none, none, .generic⟩ :=
  C3_screen_prescreen_exclusive ⟨[], none, none, .generic⟩
    (Reach.init [] none .generic ⟨[], none, none, .generic⟩ rfl)

/-! ## C2 machinery: digits and variable names -/

theorem digitChar_mem (d : Nat) : digitChar d ∈ "0123456789".data := by
  unfold digitChar
  repeat' split
  all_goals decide

theorem decChars_mem (n : Nat) : ∀ c ∈ decChars n, c ∈ "0123456789".data := by
  induction n using Nat.strong_induction_on with
  | _ n ih =>
    rw [decChars]
    split
    · intro c hc
      rw [List.mem_singleton] at hc
      subst hc
      exact digitChar_mem n
    · intro c hc
      rcases List.mem_append.mp hc with h | h
      · exact ih (n / 10) (Nat.div_lt_self (by omega) (by omega)) c h
      · rw [List.mem_singleton] at h
        subst h
        exact digitChar_mem (n % 10)

theorem charToDigit_digitChar (d : Nat) (h : d < 10) :
    charToDigit (digitChar d) = d := by
  interval_cases d <;> decide

theorem decVal_append (cs : List Char) (c : Char) :
    decVal (cs ++ [c]) = 10 * decVal cs + charToDigit c := by
  unfold decVal
  rw [List.foldl_append]
  rfl

theorem decVal_decChars (n : Nat) : decVal (decChars n) = n := by
  induction n using Nat.strong_induction_on with
  | _ n ih =>
    rw [decChars]
    split
    · next h =>
      show decVal [digitChar n] = n
      unfold decVal
      simp only [List.foldl_cons, List.foldl_nil, Nat.mul_zero, Nat.zero_add]
      exact charToDigit_digitChar n h
    · next h =>
      rw [decVal_append, ih (n / 10) (Nat.div_lt_self (by omega) (by omega)),
        charToDigit_digitChar (n % 10) (Nat.mod_lt _ (by omega))]
      omega

theorem varName_inj (a b : Nat) (h : varName a = varName b) : a = b := by
  unfold varName at h
  injection h with _ h1
  injection h1 with _ h2
  have h3 := congrArg decVal h2
  rwa [decVal_decChars, decVal_decChars] at h3

theorem varName_chars (n : Nat) (c : Char) (hc : c ∈ varName n) :
    c = 'x' ∨ c = '_' ∨ c ∈ "0123456789".data := by
  simp only [varName, List.mem_cons] at hc
  rcases hc with rfl | rfl | hc
  · exact Or.inl rfl
  · exact Or.inr (Or.inl rfl)
  · exact Or.inr (Or.inr (decChars_mem n c hc))

theorem varName_avoid (n : Nat) (c : Char) (hc : c ∈ varName n) :
    c ≠ ' ' ∧ c ≠ '&' ∧ c ≠ '~' ∧ c ≠ '(' ∧ c ≠ ')' ∧ c ≠ '|' := by
  have hdig : ∀ d ∈ "0123456789".data,
      d ≠ ' ' ∧ d ≠ '&' ∧ d ≠ '~' ∧ d ≠ '(' ∧ d ≠ ')' ∧ d ≠ '|' := by decide
  rcases varName_chars n c hc with rfl | rfl | h
  · decide
  · decide
  · exact hdig c h

/-! ## C2 machinery: splitting on " & " -/

theorem take_two_head (l : List Char) (h : l.take 2 = ['&', ' ']) :
    ∃ l', l = '&' :: l' := by
  cases l with
  | nil => simp at h
  | cons a l' =>
    simp only [List.take_succ_cons, List.cons.injEq] at h
    exact ⟨l', by rw [h.1]⟩

theorem take_two_shape (l : List Char) (h : l.take 2 = ['&', ' ']) :
    ∃ l', l = '&' :: ' ' :: l' := by
  cases l with
  | nil => simp at h
  | cons a l1 =>
    cases l1 with
    | nil => simp [List.take] at h
    | cons b l2 =>
      simp only [List.take_succ_cons, List.take_zero, List.cons.injEq,
        and_true] at h
      exact ⟨l2, by rw [h.1, h.2]⟩

theorem splitAmp_nil : splitAmp [] = [[]] := by
  rw [splitAmp]

theorem splitAmp_ne_nil (s : List Char) : splitAmp s ≠ [] := by
  induction s using splitAmp.induct with
  | case1 =>
    rw [splitAmp_nil]
    simp
  | case2 c rest h ih =>
    rw [splitAmp, if_pos h]
    simp
  | case3 c rest h hnil ih => exact absurd hnil ih
  | case4 c rest h t ts hts ih =>
    rw [splitAmp, if_neg h, hts]
    simp

theorem splitAmp_no_amp (t : List Char) (h : '&' ∉ t) : splitAmp t = [t] := by
  induction t with
  | nil => exact splitAmp_nil
  | cons c rest ih =>
    have hc : ¬(c = ' ' ∧ rest.take 2 = ['&', ' ']) := by
      rintro ⟨rfl, htake⟩
      obtain ⟨l', rfl⟩ := take_two_head rest htake
      exact h (by simp)
    have hrest : '&' ∉ rest := fun hr => h (List.mem_cons_of_mem c hr)
    rw [splitAmp, if_neg hc, ih hrest]

theorem splitAmp_append (t rest : List Char) (h : '&' ∉ t) :
    splitAmp (t ++ " & ".data ++ rest) = t :: splitAmp rest := by
  induction t with
  | nil =>
    show splitAmp (' ' :: '&' :: ' ' :: rest) = [] :: splitAmp rest
    rw [splitAmp, if_pos ⟨rfl, rfl⟩]
    rfl
  | cons c t' ih =>
    have hshape : (c :: t') ++ " & ".data ++ rest
        = c :: (t' ++ " & ".data ++ rest) := by simp
    rw [hshape]
    have hc : ¬(c = ' ' ∧ (t' ++ " & ".data ++ rest).take 2 = ['&', ' ']) := by
      rintro ⟨rfl, htake⟩
      obtain ⟨l', hl⟩ := take_two_head _ htake
      cases t' with
      | nil =>
        simp only [List.nil_append] at hl
        exact absurd (List.cons.injEq .. |>.mp hl).1 (by decide)
      | cons x t'' =>
        simp only [List.cons_append, List.cons.injEq] at hl
        exact h (by simp [hl.1])
    have ht' : '&' ∉ t' := fun hr => h (List.mem_cons_of_mem c hr)
    rw [splitAmp, if_neg hc, ih ht']

theorem joinAmp_append (x : List Char) (xs : List (List Char))
    (y : List Char) (ys : List (List Char)) :
    joinAmp ((x :: xs) ++ y :: ys) =
      joinAmp (x :: xs) ++ " & ".data ++ joinAmp (y :: ys) := by
  induction xs generalizing x with
  | nil => rfl
  | cons t2 xs'' ih =>
    show joinAmp (x :: (t2 :: (xs'' ++ y :: ys))) = _
    have l1 : joinAmp (x :: t2 :: (xs'' ++ y :: ys))
        = x ++ " & ".data ++ joinAmp (t2 :: (xs'' ++ y :: ys)) := rfl
    rw [l1]
    have l2 := ih t2
    rw [show (t2 :: xs'') ++ y :: ys = t2 :: (xs'' ++ y :: ys) from rfl] at l2
    rw [l2]
    simp [show joinAmp (x :: t2 :: xs'')
        = x ++ " & ".data ++ joinAmp (t2 :: xs'') from rfl, List.append_assoc]

theorem splitAmp_joinAmp (t : List Char) (toks : List (List Char))
    (h : ∀ x ∈ t :: toks, '&' ∉ x) :
    splitAmp (joinAmp (t :: toks)) = t :: toks := by
  induction toks generalizing t with
  | nil => exact splitAmp_no_amp t (h t (by simp))
  | cons t2 rest ih =>
    show splitAmp (t ++ " & ".data ++ joinAmp (t2 :: rest)) = _
    rw [splitAmp_append t _ (h t (by simp))]
    rw [ih t2 (fun x hx => h x (List.mem_cons_of_mem t hx))]

theorem mem_splitAmp_of_mem (c : Char) (hc1 : c ≠ ' ') (hc2 : c ≠ '&') :
    ∀ s : List Char, c ∈ s → ∃ t ∈ splitAmp s, c ∈ t := by
  intro s
  induction s using splitAmp.induct with
  | case1 =>
    intro h
    simp at h
  | case2 a rest h ih =>
    intro hmem
    obtain ⟨ha, htake⟩ := h
    obtain ⟨l2, hrest⟩ := take_two_shape rest htake
    rw [splitAmp, if_pos ⟨ha, htake⟩]
    subst ha
    subst hrest
    rcases List.mem_cons.mp hmem with rfl | hm
    · exact absurd rfl hc1
    · rcases List.mem_cons.mp hm with rfl | hm2
      · exact absurd rfl hc2
      · rcases List.mem_cons.mp hm2 with rfl | hm3
        · exact absurd rfl hc1
        · obtain ⟨t, ht, hct⟩ := ih hm3
          exact ⟨t, List.mem_cons_of_mem _ ht, hct⟩
  | case3 a rest h hnil ih => exact fun _ => absurd hnil (splitAmp_ne_nil rest)
  | case4 a rest h t ts hts ih =>
    intro hmem
    rw [splitAmp, if_neg h, hts]
    rcases List.mem_cons.mp hmem with hca | hm
    · exact ⟨a :: t, by simp, by simp [hca]⟩
    · obtain ⟨t', ht', hct'⟩ := ih hm
      rw [hts] at ht'
      rcases List.mem_cons.mp ht' with rfl | htl
      · exact ⟨a :: t', by simp, List.mem_cons_of_mem a hct'⟩
      · exact ⟨t', List.mem_cons_of_mem _ htl, hct'⟩

/-! ## C2 machinery: characters of compiled expressions -/

theorem stripParens_id (l : List Char) (h : ∀ c ∈ l, c ≠ '(' ∧ c ≠ ')') :
    stripParens l = l := by
  unfold stripParens
  rw [List.filter_eq_self.mpr, List.filter_eq_self.mpr]
  · intro a ha
    exact decide_eq_true (h a ha).1
  · intro a ha
    have ha' : a ∈ l := (List.filter_eq_self.mpr
      (fun a ha => decide_eq_true (h a ha).1)).symm ▸ ha
    exact decide_eq_true (h a ha').2

theorem stripParens_append (l1 l2 : List Char) :
    stripParens (l1 ++ l2) = stripParens l1 ++ stripParens l2 := by
  simp [stripParens, List.filter_append]

theorem mem_stripParens (c : Char) (l : List Char) (hc : c ∈ l)
    (h1 : c ≠ '(') (h2 : c ≠ ')') : c ∈ stripParens l := by
  unfold stripParens
  rw [List.mem_filter, List.mem_filter]
  exact ⟨⟨hc, decide_eq_true h1⟩, decide_eq_true h2⟩

theorem token_chars (cj : Conjunct) (n : Nat) (c : Char)
    (hc : c ∈ cj.token n) : c ≠ '(' ∧ c ≠ ')' ∧ c ≠ '&' := by
  have hmid : ∀ d ∈ " != ".data, d ≠ '(' ∧ d ≠ ')' ∧ d ≠ '&' := by decide
  cases cj with
  | cpos t =>
    have h := varName_avoid n c hc
    exact ⟨h.2.2.2.1, h.2.2.2.2.1, h.2.1⟩
  | cneg t =>
    rcases List.mem_cons.mp hc with rfl | hm
    · exact ⟨by decide, by decide, by decide⟩
    · have h := varName_avoid n c hm
      exact ⟨h.2.2.2.1, h.2.2.2.2.1, h.2.1⟩
  | cnull col =>
    simp only [Conjunct.token, List.append_assoc, List.mem_append] at hc
    rcases hc with hm | hm | hm
    · have h := varName_avoid n c hm
      exact ⟨h.2.2.2.1, h.2.2.2.2.1, h.2.1⟩
    · exact hmid c hm
    · have h := varName_avoid n c hm
      exact ⟨h.2.2.2.1, h.2.2.2.2.1, h.2.1⟩

theorem token_no_paren (cj : Conjunct) (n : Nat) :
    ∀ c ∈ cj.token n, c ≠ '(' ∧ c ≠ ')' :=
  fun c hc => ⟨(token_chars cj n c hc).1, (token_chars cj n c hc).2.1⟩

theorem token_no_amp (cj : Conjunct) (n : Nat) : '&' ∉ cj.token n :=
  fun hc => (token_chars cj n '&' hc).2.2 rfl

theorem stripTilde_varName (n : Nat) : stripTilde (varName n) = varName n := by
  unfold stripTilde
  rw [List.filter_eq_self.mpr]
  intro a ha
  exact decide_eq_true (varName_avoid n a ha).2.2.1

theorem stripTilde_tilde_varName (n : Nat) :
    stripTilde ('~' :: varName n) = varName n := by
  unfold stripTilde
  rw [List.filter_cons_of_neg (by simp)]
  exact stripTilde_varName n

theorem contains_tilde_varName (n : Nat) :
    (varName n).contains '~' = false := by
  cases h : (varName n).contains '~' with
  | false => rfl
  | true => exact absurd ((varName_avoid n '~' (List.elem_iff.mp h)).2.2.1) (by simp)

theorem stripTilde_cnull_token (col : BoundCol) (n : Nat) :
    stripTilde (Conjunct.token (.cnull col) n) = Conjunct.token (.cnull col) n := by
  unfold stripTilde
  rw [List.filter_eq_self.mpr]
  intro a ha
  simp only [Conjunct.token, List.append_assoc, List.mem_append] at ha
  have hmid : ∀ d ∈ " != ".data, d ≠ '~' := by decide
  rcases ha with hm | hm | hm
  · exact decide_eq_true (varName_avoid n a hm).2.2.1
  · exact decide_eq_true (hmid a hm)
  · exact decide_eq_true (varName_avoid n a hm).2.2.1

theorem contains_tilde_cnull_token (col : BoundCol) (n : Nat) :
    (Conjunct.token (.cnull col) n).contains '~' = false := by
  cases h : (Conjunct.token (.cnull col) n).contains '~' with
  | false => rfl
  | true =>
    have hm := List.elem_iff.mp h
    simp only [Conjunct.token, List.append_assoc, List.mem_append] at hm
    have hmid : ∀ d ∈ " != ".data, d ≠ '~' := by decide
    rcases hm with hm | hm | hm
    · exact absurd ((varName_avoid n '~' hm).2.2.1) (by simp)
    · exact absurd (hmid '~' hm) (by simp)
    · exact absurd ((varName_avoid n '~' hm).2.2.1) (by simp)

theorem space_mem_cnull_token (col : BoundCol) (n : Nat) :
    ' ' ∈ Conjunct.token (.cnull col) n := by
  simp only [Conjunct.token, List.append_assoc, List.mem_append]
  right
  left
  decide

theorem varName_ne_cnull_token (col : BoundCol) (i n : Nat) :
    varName i ≠ Conjunct.token (.cnull col) n := by
  intro h
  have hmem : ' ' ∈ varName i := h ▸ space_mem_cnull_token col n
  exact (varName_avoid i ' ' hmem).1 rfl

/-! ## C2 machinery: compiled bindings and tokens -/

theorem compileAux_keys (e : FilterAST) :
    ∀ n, ∀ kv ∈ (compileAux e n).2.1, ∃ i, kv.1 = varName i := by
  induction e with
  | leaf t =>
    intro n kv hkv
    simp only [compileAux, List.mem_singleton] at hkv
    exact ⟨n, by rw [hkv]⟩
  | selfNotEq col =>
    intro n kv hkv
    simp only [compileAux, List.mem_singleton] at hkv
    exact ⟨n, by rw [hkv]⟩
  | fneg e1 ih =>
    intro n kv hkv
    have hkv' : kv ∈ (compileAux e1 n).2.1 := by
      cases e1 <;> simpa [compileAux] using hkv
    exact ih n kv hkv'
  | fand a b iha ihb =>
    intro n kv hkv
    simp only [compileAux, List.mem_append] at hkv
    rcases hkv with h | h
    · exact iha n kv h
    · exact ihb _ kv h
  | fior a b iha ihb =>
    intro n kv hkv
    simp only [compileAux, List.mem_append] at hkv
    rcases hkv with h | h
    · exact iha n kv h
    · exact ihb _ kv h

theorem compileAux_or_mem (e : FilterAST) :
    ∀ n, hasOr e = true → '|' ∈ (compileAux e n).1 := by
  induction e with
  | leaf t => intro n h; simp [hasOr] at h
  | selfNotEq col => intro n h; simp [hasOr] at h
  | fneg e1 ih =>
    intro n h
    have h1 : hasOr e1 = true := by simpa [hasOr] using h
    have hm := ih n h1
    cases e1 <;> simp_all [compileAux, hasOr]
  | fand a b iha ihb =>
    intro n h
    simp only [hasOr, Bool.or_eq_true] at h
    have hab : '|' ∈ (compileAux a n).1 ∨
        '|' ∈ (compileAux b (compileAux a n).2.2).1 := by
      rcases h with h | h
      · exact Or.inl (iha n h)
      · exact Or.inr (ihb _ h)
    show '|' ∈ '(' :: ((compileAux a n).1 ++ ") & (".data ++
        (compileAux b (compileAux a n).2.2).1 ++ [')'])
    simp only [List.mem_cons, List.mem_append]
    tauto
  | fior a b iha ihb =>
    intro n h
    show '|' ∈ '(' :: ((compileAux a n).1 ++ ") | (".data ++
        (compileAux b (compileAux a n).2.2).1 ++ [')'])
    have hmid : '|' ∈ ") | (".data := by decide
    simp only [List.mem_cons, List.mem_append]
    tauto

theorem joinAmp_append' (xs ys : List (List Char)) (hx : xs ≠ [])
    (hy : ys ≠ []) :
    joinAmp (xs ++ ys) = joinAmp xs ++ " & ".data ++ joinAmp ys := by
  cases xs with
  | nil => exact absurd rfl hx
  | cons x xs' =>
    cases ys with
    | nil => exact absurd rfl hy
    | cons y ys' => exact joinAmp_append x xs' y ys'

theorem stripParens_lparen_cons (l : List Char) :
    stripParens ('(' :: l) = stripParens l := by
  unfold stripParens
  rw [List.filter_cons_of_neg (by decide)]

theorem conjTokens_append (cs1 cs2 : List Conjunct) :
    ∀ n, conjTokens (cs1 ++ cs2) n
      = conjTokens cs1 n ++ conjTokens cs2 (n + cs1.length) := by
  induction cs1 with
  | nil => intro n; simp [conjTokens]
  | cons c cs ih =>
    intro n
    show Conjunct.token c n :: conjTokens (cs ++ cs2) (n + 1) = _
    rw [ih (n + 1)]
    have harg : n + 1 + cs.length = n + (c :: cs).length := by
      simp [List.length_cons]
      omega
    rw [harg]
    rfl

theorem conjBinds_append (cs1 cs2 : List Conjunct) :
    ∀ n, conjBinds (cs1 ++ cs2) n
      = conjBinds cs1 n ++ conjBinds cs2 (n + cs1.length) := by
  induction cs1 with
  | nil => intro n; simp [conjBinds]
  | cons c cs ih =>
    intro n
    show (varName n, c.term) :: conjBinds (cs ++ cs2) (n + 1) = _
    rw [ih (n + 1)]
    have harg : n + 1 + cs.length = n + (c :: cs).length := by
      simp [List.length_cons]
      omega
    rw [harg]
    rfl

theorem conjuncts_ne_nil (tr : AndTree) : tr.conjuncts ≠ [] := by
  induction tr with
  | leaf c => simp [AndTree.conjuncts]
  | node l r ihl ihr =>
    show l.conjuncts ++ r.conjuncts ≠ []
    intro h
    exact ihl (List.append_eq_nil.mp h).1

theorem conjTokens_ne_nil (cs : List Conjunct) (h : cs ≠ []) (n : Nat) :
    conjTokens cs n ≠ [] := by
  cases cs with
  | nil => exact absurd rfl h
  | cons c cs' => simp [conjTokens]

/-- The compiled form of an AND-tree: the parenthesis-stripped expression is
the `" & "`-join of the conjunct tokens, the bindings are the conjunct
bindings, and the next index advances by the number of conjuncts. -/
theorem andTree_compile (tr : AndTree) :
    ∀ n, stripParens (compileAux tr.toAST n).1
        = joinAmp (conjTokens tr.conjuncts n) ∧
      (compileAux tr.toAST n).2.1 = conjBinds tr.conjuncts n ∧
      (compileAux tr.toAST n).2.2 = n + tr.conjuncts.length := by
  induction tr with
  | leaf c =>
    intro n
    cases c with
    | cpos t =>
      refine ⟨?_, rfl, rfl⟩
      show stripParens (varName n) = joinAmp [varName n]
      exact stripParens_id _ (fun c hc =>
        ⟨(varName_avoid n c hc).2.2.2.1, (varName_avoid n c hc).2.2.2.2.1⟩)
    | cneg t =>
      refine ⟨?_, rfl, rfl⟩
      show stripParens ('~' :: varName n) = joinAmp ['~' :: varName n]
      exact stripParens_id _ (token_no_paren (.cneg t) n)
    | cnull col =>
      refine ⟨?_, rfl, rfl⟩
      show stripParens (varName n ++ " != ".data ++ varName n)
          = joinAmp [varName n ++ " != ".data ++ varName n]
      exact stripParens_id _ (token_no_paren (.cnull col) n)
  | node l r ihl ihr =>
    intro n
    obtain ⟨hl1, hl2, hl3⟩ := ihl n
    obtain ⟨hr1, hr2, hr3⟩ := ihr (n + l.conjuncts.length)
    have hstep : (compileAux l.toAST n).2.2 = n + l.conjuncts.length := hl3
    refine ⟨?_, ?_, ?_⟩
    · show stripParens ('(' :: ((compileAux l.toAST n).1 ++ ") & (".data ++
          (compileAux r.toAST (compileAux l.toAST n).2.2).1 ++ [')'])) = _
      rw [hstep, stripParens_lparen_cons]
      simp only [stripParens_append]
      rw [show stripParens (") & (".data) = " & ".data from by decide,
        show stripParens ([')'] : List Char) = [] from by decide]
      rw [List.append_nil, hl1, hr1]
      show joinAmp (conjTokens l.conjuncts n) ++ " & ".data ++
          joinAmp (conjTokens r.conjuncts (n + l.conjuncts.length))
        = joinAmp (conjTokens (l.conjuncts ++ r.conjuncts) n)
      rw [conjTokens_append]
      rw [joinAmp_append' (conjTokens l.conjuncts n)
        (conjTokens r.conjuncts (n + l.conjuncts.length))
        (conjTokens_ne_nil _ (conjuncts_ne_nil l) n)
        (conjTokens_ne_nil _ (conjuncts_ne_nil r) _)]
    · show (compileAux l.toAST n).2.1 ++
          (compileAux r.toAST (compileAux l.toAST n).2.2).2.1 = _
      rw [hstep, hl2, hr2]
      show _ = conjBinds (l.conjuncts ++ r.conjuncts) n
      rw [conjBinds_append]
    · show (compileAux r.toAST (compileAux l.toAST n).2.2).2.2 = _
      rw [hstep, hr3]
      show _ = n + (l.conjuncts ++ r.conjuncts).length
      simp only [List.length_append]
      omega

/-! ## C2 machinery: conversion-dict lemmas -/

theorem dictFallback_isSome (t : PTerm) (p : Prescreen) (neg : Bool) :
    (dictFallback t p neg).isSome = (termToPrescreenFielddef t).isSome := by
  cases h : termToPrescreenFielddef t <;> simp [dictFallback, h]

theorem termToPrescreenDict_isSome_indep (t : PTerm) (p1 p2 : Option Prescreen)
    (neg : Bool) :
    (termToPrescreenDict t p1 neg).isSome
      = (termToPrescreenDict t p2 neg).isSome := by
  cases t with
  | numExprFilter expr bindings =>
    by_cases hx : expr = notX0Expr
    · cases h : (lookupKey x0Name bindings).bind termToPrescreenFielddef with
      | some fd => simp [termToPrescreenDict, hx, h]
      | none => simp [termToPrescreenDict, hx, h, dictFallback_isSome]
    · simp [termToPrescreenDict, hx, dictFallback_isSome]
  | singleAsset sid => rfl
  | staticAssets sids => rfl
  | staticSids sids => rfl
  | staticUniverse sids => rfl
  | latestClassifier col => simp [termToPrescreenDict, dictFallback_isSome]
  | latestFactor col => simp [termToPrescreenDict, dictFallback_isSome]
  | latestFilter col => simp [termToPrescreenDict, dictFallback_isSome]
  | arrayPredicate inp opName opargs =>
    simp [termToPrescreenDict, dictFallback_isSome]
  | nullFilter inp => simp [termToPrescreenDict, dictFallback_isSome]
  | notNullFilter inp => simp [termToPrescreenDict, dictFallback_isSome]
  | otherTerm tag ndim computable =>
    simp [termToPrescreenDict, dictFallback_isSome]

theorem addField_nonempty (p : Prescreen) (fd : Fielddef) :
    (p.addField fd).isEmptyDict = false := by
  simp [Prescreen.addField, Prescreen.isEmptyDict]

theorem dictFallback_nonempty (t : PTerm) (p : Prescreen) (neg : Bool)
    (q : Prescreen) (h : dictFallback t p neg = some q) :
    q.isEmptyDict = false := by
  unfold dictFallback at h
  cases hf : termToPrescreenFielddef t with
  | none =>
    rw [hf] at h
    exact absurd h (by simp)
  | some fd =>
    rw [hf] at h
    have h2 := Option.some.inj h
    rw [← h2]
    exact addField_nonempty _ _

theorem termToPrescreenDict_nonempty (t : PTerm) (p : Option Prescreen)
    (neg : Bool) (q : Prescreen)
    (h : termToPrescreenDict t p neg = some q) : q.isEmptyDict = false := by
  cases t with
  | singleAsset sid =>
    simp only [termToPrescreenDict] at h
    rw [← Option.some.inj h]
    simp [Prescreen.isEmptyDict]
  | staticAssets sids =>
    simp only [termToPrescreenDict] at h
    rw [← Option.some.inj h]
    simp [Prescreen.isEmptyDict]
  | staticSids sids =>
    simp only [termToPrescreenDict] at h
    rw [← Option.some.inj h]
    simp [Prescreen.isEmptyDict]
  | staticUniverse sids =>
    simp only [termToPrescreenDict] at h
    rw [← Option.some.inj h]
    simp [Prescreen.isEmptyDict]
  | numExprFilter expr bindings =>
    simp only [termToPrescreenDict] at h
    by_cases hx : expr = notX0Expr
    · rw [if_pos hx] at h
      cases hb : (lookupKey x0Name bindings).bind termToPrescreenFielddef with
      | some fd =>
        rw [hb] at h
        simp only at h
        rw [← Option.some.inj h]
        exact addField_nonempty _ _
      | none =>
        rw [hb] at h
        exact dictFallback_nonempty _ _ _ _ h
    · rw [if_neg hx] at h
      exact dictFallback_nonempty _ _ _ _ h
  | latestClassifier col =>
    simp only [termToPrescreenDict] at h
    exact dictFallback_nonempty _ _ _ _ h
  | latestFactor col =>
    simp only [termToPrescreenDict] at h
    exact dictFallback_nonempty _ _ _ _ h
  | latestFilter col =>
    simp only [termToPrescreenDict] at h
    exact dictFallback_nonempty _ _ _ _ h
  | arrayPredicate inp opName opargs =>
    simp only [termToPrescreenDict] at h
    exact dictFallback_nonempty _ _ _ _ h
  | nullFilter inp =>
    simp only [termToPrescreenDict] at h
    exact dictFallback_nonempty _ _ _ _ h
  | notNullFilter inp =>
    simp only [termToPrescreenDict] at h
    exact dictFallback_nonempty _ _ _ _ h
  | otherTerm tag ndim computable =>
    simp only [termToPrescreenDict] at h
    exact dictFallback_nonempty _ _ _ _ h

/-! ## C2 machinery: set equality -/

theorem sameElems_self (l : List (List Char)) : sameElems l l = true := by
  have h : l.all (fun x => l.contains x) = true := by
    rw [List.all_eq_true]
    intro x hx
    exact List.elem_iff.mpr hx
  unfold sameElems
  rw [h]
  rfl

theorem sameElems_false_left (a b : List (List Char)) (x : List Char)
    (hx : x ∈ a) (hnb : x ∉ b) : sameElems a b = false := by
  have h : a.all (fun y => b.contains y) = false := by
    cases hh : a.all (fun y => b.contains y) with
    | false => rfl
    | true => exact absurd (List.elem_iff.mp (List.all_eq_true.mp hh x hx)) hnb
  unfold sameElems
  rw [h, Bool.false_and]

/-! ## C2 machinery: the conversion loop -/

theorem lookupKey_conjBinds (cs : List Conjunct) :
    ∀ n j c, cs.get? j = some c →
      lookupKey (varName (n + j)) (conjBinds cs n) = some c.term := by
  induction cs with
  | nil =>
    intro n j c h
    simp at h
  | cons c0 cs' ih =>
    intro n j c h
    cases j with
    | zero =>
      obtain rfl : c0 = c := Option.some.inj h
      show lookupKey (varName (n + 0)) ((varName n, c0.term) :: conjBinds cs' (n + 1))
          = some c0.term
      rw [Nat.add_zero]
      simp [lookupKey]
    | succ j' =>
      have h' : cs'.get? j' = some c := h
      have hne : (varName n == varName (n + (j' + 1))) = false := by
        rw [beq_eq_false_iff_ne]
        intro hEq
        have := varName_inj _ _ hEq
        omega
      show lookupKey (varName (n + (j' + 1)))
          ((varName n, c0.term) :: conjBinds cs' (n + 1)) = some c.term
      simp only [lookupKey, hne, if_false, Bool.false_eq_true]
      rw [show n + (j' + 1) = n + 1 + j' from by omega]
      exact ih (n + 1) j' c h'

theorem conjTokens_no_amp (cs : List Conjunct) :
    ∀ n, ∀ x ∈ conjTokens cs n, '&' ∉ x := by
  induction cs with
  | nil => intro n x hx; simp [conjTokens] at hx
  | cons c0 cs' ih =>
    intro n x hx
    rcases List.mem_cons.mp hx with rfl | hx'
    · exact token_no_amp c0 n
    · exact ih (n + 1) x hx'

theorem stripped_tokens_eq_keys (cs : List Conjunct)
    (h : ∀ col, Conjunct.cnull col ∉ cs) :
    ∀ n, (conjTokens cs n).map stripTilde = (conjBinds cs n).map Prod.fst := by
  induction cs with
  | nil => intro n; rfl
  | cons c0 cs' ih =>
    intro n
    have h' : ∀ col, Conjunct.cnull col ∉ cs' :=
      fun col hc => h col (List.mem_cons_of_mem _ hc)
    show stripTilde (c0.token n) :: (conjTokens cs' (n + 1)).map stripTilde
        = varName n :: (conjBinds cs' (n + 1)).map Prod.fst
    rw [ih h' (n + 1)]
    congr 1
    cases c0 with
    | cpos t => exact stripTilde_varName n
    | cneg t => exact stripTilde_tilde_varName n
    | cnull col => exact absurd (List.mem_cons_self _ _) (h col)

theorem cnull_token_not_key (cs : List Conjunct) (col : BoundCol) (m : Nat) :
    ∀ n, Conjunct.token (.cnull col) m ∉ (conjBinds cs n).map Prod.fst := by
  induction cs with
  | nil => intro n; simp [conjBinds]
  | cons c0 cs' ih =>
    intro n hmem
    rcases List.mem_cons.mp hmem with heq | hmem'
    · exact varName_ne_cnull_token col n m heq.symm
    · exact ih (n + 1) hmem'

theorem cnull_stripped_mem (cs : List Conjunct) (col : BoundCol)
    (hc : Conjunct.cnull col ∈ cs) :
    ∀ n, ∃ m, Conjunct.token (.cnull col) m ∈ (conjTokens cs n).map stripTilde := by
  induction cs with
  | nil => exact absurd hc (by simp)
  | cons c0 cs' ih =>
    intro n
    rcases List.mem_cons.mp hc with rfl | hc'
    · refine ⟨n, ?_⟩
      show _ ∈ stripTilde (Conjunct.token (.cnull col) n) ::
        (conjTokens cs' (n + 1)).map stripTilde
      rw [stripTilde_cnull_token]
      exact List.mem_cons_self _ _
    · obtain ⟨m, hm⟩ := ih hc' (n + 1)
      exact ⟨m, List.mem_cons_of_mem _ hm⟩

theorem tilde_not_mem_varName (n : Nat) : '~' ∉ varName n :=
  fun hm => (varName_avoid n '~' hm).2.2.1 rfl

theorem convertAndTerms_ok (B : List (List Char × PTerm)) :
    ∀ (cs : List Conjunct) (n : Nat) (p : Prescreen),
      (∀ j c, cs.get? j = some c → lookupKey (varName (n + j)) B = some c.term) →
      cs.all conjunctConverts = true →
      ∃ q, convertAndTerms B (conjTokens cs n) p = some q := by
  intro cs
  induction cs with
  | nil =>
    intro n p _ _
    exact ⟨p, rfl⟩
  | cons c0 cs' ih =>
    intro n p hlk hconv
    have hc0 : conjunctConverts c0 = true :=
      List.all_eq_true.mp hconv c0 (List.mem_cons_self _ _)
    have hrest : cs'.all conjunctConverts = true := by
      rw [List.all_eq_true]
      intro x hx
      exact List.all_eq_true.mp hconv x (List.mem_cons_of_mem _ hx)
    have hlk0 : lookupKey (varName n) B = some c0.term := by
      have h0 := hlk 0 c0 rfl
      rwa [Nat.add_zero] at h0
    have hlk' : ∀ j c, cs'.get? j = some c →
        lookupKey (varName (n + 1 + j)) B = some c.term := by
      intro j c h
      have hj := hlk (j + 1) c h
      rwa [show n + (j + 1) = n + 1 + j from by omega] at hj
    cases c0 with
    | cnull col => simp [conjunctConverts] at hc0
    | cpos t =>
      have hsome : (termToPrescreenDict t (some p) false).isSome = true := by
        rw [termToPrescreenDict_isSome_indep t (some p) none false]
        exact hc0
      obtain ⟨q1, hq1⟩ := Option.isSome_iff_exists.mp hsome
      have hq1ne := termToPrescreenDict_nonempty t (some p) false q1 hq1
      have hstep : convertAndTerms B (conjTokens (Conjunct.cpos t :: cs') n) p
          = convertAndTerms B (conjTokens cs' (n + 1)) q1 := by
        show convertAndTerms B (varName n :: conjTokens cs' (n + 1)) p = _
        simp [convertAndTerms, tilde_not_mem_varName, stripTilde_varName,
          hlk0, Conjunct.term, hq1, hq1ne]
      rw [hstep]
      exact ih (n + 1) q1 hlk' hrest
    | cneg t =>
      have hcont : (('~' :: varName n).contains '~') = true :=
        List.elem_iff.mpr (List.mem_cons_self _ _)
      have hsome : (termToPrescreenDict t (some p) true).isSome = true := by
        rw [termToPrescreenDict_isSome_indep t (some p) none true]
        exact hc0
      obtain ⟨q1, hq1⟩ := Option.isSome_iff_exists.mp hsome
      have hq1ne := termToPrescreenDict_nonempty t (some p) true q1 hq1
      have hstep : convertAndTerms B (conjTokens (Conjunct.cneg t :: cs') n) p
          = convertAndTerms B (conjTokens cs' (n + 1)) q1 := by
        show convertAndTerms B (('~' :: varName n) :: conjTokens cs' (n + 1)) p
            = _
        simp [convertAndTerms, hcont, stripTilde_tilde_varName, hlk0,
          Conjunct.term, hq1, hq1ne]
      rw [hstep]
      exact ih (n + 1) q1 hlk' hrest

theorem convertAndTerms_fail (B : List (List Char × PTerm)) :
    ∀ (cs : List Conjunct) (n : Nat) (p : Prescreen),
      (∀ j c, cs.get? j = some c → lookupKey (varName (n + j)) B = some c.term) →
      (∀ col, Conjunct.cnull col ∉ cs) →
      cs.all conjunctConverts = false →
      convertAndTerms B (conjTokens cs n) p = none := by
  intro cs
  induction cs with
  | nil =>
    intro n p _ _ hconv
    simp at hconv
  | cons c0 cs' ih =>
    intro n p hlk hnull hconv
    have hlk0 : lookupKey (varName n) B = some c0.term := by
      have h0 := hlk 0 c0 rfl
      rwa [Nat.add_zero] at h0
    have hlk' : ∀ j c, cs'.get? j = some c →
        lookupKey (varName (n + 1 + j)) B = some c.term := by
      intro j c h
      have hj := hlk (j + 1) c h
      rwa [show n + (j + 1) = n + 1 + j from by omega] at hj
    have hnull' : ∀ col, Conjunct.cnull col ∉ cs' :=
      fun col hc => hnull col (List.mem_cons_of_mem _ hc)
    cases hc0 : conjunctConverts c0 with
    | false =>
      cases c0 with
      | cnull col => exact absurd (List.mem_cons_self _ _) (hnull col)
      | cpos t =>
        have hnone : termToPrescreenDict t (some p) false = none := by
          cases hd : termToPrescreenDict t (some p) false with
          | none => rfl
          | some q =>
            have : (termToPrescreenDict t none false).isSome = true := by
              rw [← termToPrescreenDict_isSome_indep t (some p) none false, hd]
              rfl
            exact absurd this (by rw [show (termToPrescreenDict t none false).isSome = conjunctConverts (Conjunct.cpos t) from rfl, hc0]; simp)
        show convertAndTerms B (varName n :: conjTokens cs' (n + 1)) p = none
        simp [convertAndTerms, tilde_not_mem_varName, stripTilde_varName,
          hlk0, Conjunct.term, hnone]
      | cneg t =>
        have hcont : (('~' :: varName n).contains '~') = true :=
          List.elem_iff.mpr (List.mem_cons_self _ _)
        have hnone : termToPrescreenDict t (some p) true = none := by
          cases hd : termToPrescreenDict t (some p) true with
          | none => rfl
          | some q =>
            have : (termToPrescreenDict t none true).isSome = true := by
              rw [← termToPrescreenDict_isSome_indep t (some p) none true, hd]
              rfl
            exact absurd this (by rw [show (termToPrescreenDict t none true).isSome = conjunctConverts (Conjunct.cneg t) from rfl, hc0]; simp)
        show convertAndTerms B (('~' :: varName n) :: conjTokens cs' (n + 1)) p
            = none
        simp [convertAndTerms, hcont, stripTilde_tilde_varName, hlk0,
          Conjunct.term, hnone]
    | true =>
      have hrest : cs'.all conjunctConverts = false := by
        have hh : (c0 :: cs').all conjunctConverts
            = (conjunctConverts c0 && cs'.all conjunctConverts) := rfl
        rw [hh, hc0, Bool.true_and] at hconv
        exact hconv
      cases c0 with
      | cnull col => exact absurd (List.mem_cons_self _ _) (hnull col)
      | cpos t =>
        have hsome : (termToPrescreenDict t (some p) false).isSome = true := by
          rw [termToPrescreenDict_isSome_indep t (some p) none false]
          exact hc0
        obtain ⟨q1, hq1⟩ := Option.isSome_iff_exists.mp hsome
        have hq1ne := termToPrescreenDict_nonempty t (some p) false q1 hq1
        have hstep : convertAndTerms B (conjTokens (Conjunct.cpos t :: cs') n) p
            = convertAndTerms B (conjTokens cs' (n + 1)) q1 := by
          show convertAndTerms B (varName n :: conjTokens cs' (n + 1)) p = _
          simp [convertAndTerms, tilde_not_mem_varName, stripTilde_varName,
            hlk0, Conjunct.term, hq1, hq1ne]
        rw [hstep]
        exact ih (n + 1) q1 hlk' hnull' hrest
      | cneg t =>
        have hcont : (('~' :: varName n).contains '~') = true :=
          List.elem_iff.mpr (List.mem_cons_self _ _)
        have hsome : (termToPrescreenDict t (some p) true).isSome = true := by
          rw [termToPrescreenDict_isSome_indep t (some p) none true]
          exact hc0
        obtain ⟨q1, hq1⟩ := Option.isSome_iff_exists.mp hsome
        have hq1ne := termToPrescreenDict_nonempty t (some p) true q1 hq1
        have hstep : convertAndTerms B (conjTokens (Conjunct.cneg t :: cs') n) p
            = convertAndTerms B (conjTokens cs' (n + 1)) q1 := by
          show convertAndTerms B (('~' :: varName n) :: conjTokens cs' (n + 1)) p
              = _
          simp [convertAndTerms, hcont, stripTilde_tilde_varName, hlk0,
            Conjunct.term, hq1, hq1ne]
        rw [hstep]
        exact ih (n + 1) q1 hlk' hnull' hrest

/-! ## C2 machinery: the conversion attempt on compiled AND screens -/

theorem dict_none_numexpr (expr : List Char) (bs : List (List Char × PTerm))
    (acc : Option Prescreen) (neg : Bool)
    (h1 : expr ≠ notX0Expr) (h2 : expr ≠ selfNeExpr) :
    termToPrescreenDict (.numExprFilter expr bs) acc neg = none := by
  simp [termToPrescreenDict, dictFallback, termToPrescreenFielddef, h1, h2]

theorem amp_mem_fand (a b : FilterAST) (n : Nat) :
    '&' ∈ (compileAux (.fand a b) n).1 := by
  show '&' ∈ '(' :: ((compileAux a n).1 ++ ") & (".data ++
      (compileAux b (compileAux a n).2.2).1 ++ [')'])
  have hmid : '&' ∈ ") & (".data := by decide
  simp only [List.mem_cons, List.mem_append]
  tauto

theorem hasOr_no_convert (st : PipeState) (e : FilterAST)
    (h : hasOr e = true) :
    maybeConvertToPrescreen st (compileTop e) = st := by
  have hne : compileTop e
      = .numExprFilter (compileAux e 0).1 (compileAux e 0).2.1 := by
    cases e with
    | leaf t => simp [hasOr] at h
    | selfNotEq col => simp [hasOr] at h
    | fneg e1 => rfl
    | fand a b => rfl
    | fior a b => rfl
  have hpipe : '|' ∈ (compileAux e 0).1 := compileAux_or_mem e 0 h
  have h1 : (compileAux e 0).1 ≠ notX0Expr :=
    fun hh => absurd (hh ▸ hpipe) (by decide)
  have h2 : (compileAux e 0).1 ≠ selfNeExpr :=
    fun hh => absurd (hh ▸ hpipe) (by decide)
  have htop := dict_none_numexpr (compileAux e 0).1 (compileAux e 0).2.1
    none false h1 h2
  obtain ⟨tok, htok, hpt⟩ := mem_splitAmp_of_mem '|' (by decide) (by decide)
    (stripParens (compileAux e 0).1)
    (mem_stripParens '|' _ hpipe (by decide) (by decide))
  have hxmem : stripTilde tok ∈
      (splitAmp (stripParens (compileAux e 0).1)).map stripTilde :=
    List.mem_map_of_mem _ htok
  have hxpipe : '|' ∈ stripTilde tok := by
    unfold stripTilde
    rw [List.mem_filter]
    exact ⟨hpt, by decide⟩
  have hnotkey : stripTilde tok ∉ ((compileAux e 0).2.1).map Prod.fst := by
    intro hmem
    obtain ⟨kv, hkv, hkv2⟩ := List.mem_map.mp hmem
    obtain ⟨i, hi⟩ := compileAux_keys e 0 kv hkv
    rw [hkv2] at hi
    exact (varName_avoid i '|' (hi ▸ hxpipe)).2.2.2.2.2 rfl
  have hsame := sameElems_false_left _ _ (stripTilde tok) hxmem hnotkey
  rw [hne]
  unfold maybeConvertToPrescreen
  rw [htop]
  dsimp only
  rw [hsame]
  simp

theorem and_tree_install (st : PipeState) (tr : AndTree)
    (h2 : 2 ≤ tr.conjuncts.length)
    (hall : tr.conjuncts.all conjunctConverts = true) :
    ∃ p, maybeConvertToPrescreen st (compileTop tr.toAST)
      = { st with screen := none, prescreen := some p } := by
  cases tr with
  | leaf c => simp [AndTree.conjuncts] at h2
  | node l r =>
    obtain ⟨hs1, hs2, _⟩ := andTree_compile (.node l r) 0
    have hamp : '&' ∈ (compileAux (AndTree.node l r).toAST 0).1 :=
      amp_mem_fand l.toAST r.toAST 0
    have hn1 : (compileAux (AndTree.node l r).toAST 0).1 ≠ notX0Expr :=
      fun hh => absurd (hh ▸ hamp) (by decide)
    have hn2 : (compileAux (AndTree.node l r).toAST 0).1 ≠ selfNeExpr :=
      fun hh => absurd (hh ▸ hamp) (by decide)
    have htop := dict_none_numexpr (compileAux (AndTree.node l r).toAST 0).1
      (compileAux (AndTree.node l r).toAST 0).2.1 none false hn1 hn2
    have hnonull : ∀ col, Conjunct.cnull col ∉ (AndTree.node l r).conjuncts := by
      intro col hc
      have hcv := List.all_eq_true.mp hall _ hc
      simp [conjunctConverts] at hcv
    have htoks : splitAmp
        (stripParens (compileAux (AndTree.node l r).toAST 0).1)
        = conjTokens (AndTree.node l r).conjuncts 0 := by
      rw [hs1]
      cases hcs : (AndTree.node l r).conjuncts with
      | nil => exact absurd hcs (conjuncts_ne_nil _)
      | cons c0 cs' =>
        show splitAmp (joinAmp (Conjunct.token c0 0 :: conjTokens cs' 1)) = _
        exact splitAmp_joinAmp _ _ (fun x hx =>
          conjTokens_no_amp (c0 :: cs') 0 x hx)
    have hsame : sameElems
        ((conjTokens (AndTree.node l r).conjuncts 0).map stripTilde)
        ((conjBinds (AndTree.node l r).conjuncts 0).map Prod.fst) = true := by
      rw [stripped_tokens_eq_keys _ hnonull 0]
      exact sameElems_self _
    obtain ⟨q, hq⟩ := convertAndTerms_ok
      (conjBinds (AndTree.node l r).conjuncts 0)
      (AndTree.node l r).conjuncts 0 Prescreen.empty
      (fun j c h => lookupKey_conjBinds _ 0 j c h) hall
    refine ⟨q, ?_⟩
    show maybeConvertToPrescreen st
        (.numExprFilter (compileAux (AndTree.node l r).toAST 0).1
          (compileAux (AndTree.node l r).toAST 0).2.1) = _
    unfold maybeConvertToPrescreen
    rw [htop]
    dsimp only
    rw [htoks, hs2, if_pos hsame, hq]

theorem and_tree_abandon (st : PipeState) (tr : AndTree)
    (h2 : 2 ≤ tr.conjuncts.length)
    (hnall : tr.conjuncts.all conjunctConverts = false) :
    maybeConvertToPrescreen st (compileTop tr.toAST) = st := by
  cases tr with
  | leaf c => simp [AndTree.conjuncts] at h2
  | node l r =>
    obtain ⟨hs1, hs2, _⟩ := andTree_compile (.node l r) 0
    have hamp : '&' ∈ (compileAux (AndTree.node l r).toAST 0).1 :=
      amp_mem_fand l.toAST r.toAST 0
    have hn1 : (compileAux (AndTree.node l r).toAST 0).1 ≠ notX0Expr :=
      fun hh => absurd (hh ▸ hamp) (by decide)
    have hn2 : (compileAux (AndTree.node l r).toAST 0).1 ≠ selfNeExpr :=
      fun hh => absurd (hh ▸ hamp) (by decide)
    have htop := dict_none_numexpr (compileAux (AndTree.node l r).toAST 0).1
      (compileAux (AndTree.node l r).toAST 0).2.1 none false hn1 hn2
    have htoks : splitAmp
        (stripParens (compileAux (AndTree.node l r).toAST 0).1)
        = conjTokens (AndTree.node l r).conjuncts 0 := by
      rw [hs1]
      cases hcs : (AndTree.node l r).conjuncts with
      | nil => exact absurd hcs (conjuncts_ne_nil _)
      | cons c0 cs' =>
        show splitAmp (joinAmp (Conjunct.token c0 0 :: conjTokens cs' 1)) = _
        exact splitAmp_joinAmp _ _ (fun x hx =>
          conjTokens_no_amp (c0 :: cs') 0 x hx)
    show maybeConvertToPrescreen st
        (.numExprFilter (compileAux (AndTree.node l r).toAST 0).1
          (compileAux (AndTree.node l r).toAST 0).2.1) = _
    unfold maybeConvertToPrescreen
    rw [htop]
    dsimp only
    rw [htoks, hs2]
    by_cases hnull : ∃ col, Conjunct.cnull col ∈ (AndTree.node l r).conjuncts
    · obtain ⟨col, hcol⟩ := hnull
      obtain ⟨m, hm⟩ := cnull_stripped_mem _ col hcol 0
      have hnk := cnull_token_not_key (AndTree.node l r).conjuncts col m 0
      have hsame := sameElems_false_left _ _ _ hm hnk
      rw [hsame]
      simp
    · push_neg at hnull
      have hnonull : ∀ col, Conjunct.cnull col ∉ (AndTree.node l r).conjuncts :=
        hnull
      have hsame : sameElems
          ((conjTokens (AndTree.node l r).conjuncts 0).map stripTilde)
          ((conjBinds (AndTree.node l r).conjuncts 0).map Prod.fst) = true := by
        rw [stripped_tokens_eq_keys _ hnonull 0]
        exact sameElems_self _
      rw [if_pos hsame]
      rw [convertAndTerms_fail (conjBinds (AndTree.node l r).conjuncts 0)
        (AndTree.node l r).conjuncts 0 Prescreen.empty
        (fun j c h => lookupKey_conjBinds _ 0 j c h) hnonull hnall]

/-- Claim C2: for every screen that is a boolean AND of two or more
conjuncts, the optimizer installs a prescreen only if every conjunct
converts, regardless of conjunct order and of parenthesization (the install
decision depends only on the multiset of conjuncts); if at least one
conjunct does not convert, no prescreen is installed at all and the original
screen is kept unchanged; and OR-combinations are never converted.  A
conjunct "converts" when `_term_to_prescreen_dict` accepts its bound term
with the token's negation flag; a float-null (`x != x`) conjunct never
converts inside an AND, because its token can never match a binding key. -/
theorem C2_conjunction_rule (st : PipeState) (tr : AndTree)
    (h2 : 2 ≤ tr.conjuncts.length) (hpre : st.prescreen = none) :
    (tr.conjuncts.all conjunctConverts = true →
      ∃ p, maybeConvertToPrescreen st (compileTop tr.toAST)
        = { st with screen := none, prescreen := some p }) ∧
    (tr.conjuncts.all conjunctConverts = false →
      maybeConvertToPrescreen st (compileTop tr.toAST) = st) ∧
    (∀ tr' : AndTree, tr'.conjuncts.Perm tr.conjuncts →
      ((maybeConvertToPrescreen st (compileTop tr'.toAST)).prescreen.isSome
        ↔ (maybeConvertToPrescreen st (compileTop tr.toAST)).prescreen.isSome)) ∧
    (∀ e : FilterAST, hasOr e = true →
      maybeConvertToPrescreen st (compileTop e) = st) := by
  have hdecide : ∀ (t : AndTree), 2 ≤ t.conjuncts.length →
      (t.conjuncts.all conjunctConverts = true →
        (maybeConvertToPrescreen st (compileTop t.toAST)).prescreen.isSome
          = true) ∧
      (t.conjuncts.all conjunctConverts = false →
        (maybeConvertToPrescreen st (compileTop t.toAST)).prescreen.isSome
          = false) := by
    intro t ht
    constructor
    · intro hall
      obtain ⟨p, hp⟩ := and_tree_install st t ht hall
      rw [hp]
      rfl
    · intro hnall
      rw [and_tree_abandon st t ht hnall, hpre]
      rfl
  refine ⟨fun hall => and_tree_install st tr h2 hall,
    fun hnall => and_tree_abandon st tr h2 hnall, ?_, hasOr_no_convert st⟩
  intro tr' hperm
  have hlen : 2 ≤ tr'.conjuncts.length := by
    rw [hperm.length_eq]
    exact h2
  have hallEq : tr'.conjuncts.all conjunctConverts
      = tr.conjuncts.all conjunctConverts := by
    cases hh : tr.conjuncts.all conjunctConverts with
    | true =>
      rw [List.all_eq_true] at hh ⊢
      intro x hx
      exact hh x (hperm.mem_iff.mp hx)
    | false =>
      cases hh' : tr'.conjuncts.all conjunctConverts with
      | false => rfl
      | true =>
        rw [List.all_eq_true] at hh'
        have : tr.conjuncts.all conjunctConverts = true := by
          rw [List.all_eq_true]
          intro x hx
          exact hh' x (hperm.mem_iff.mpr hx)
        rw [this] at hh
        exact absurd hh (by simp)
  cases hh : tr.conjuncts.all conjunctConverts with
  | true =>
    rw [(hdecide tr' hlen).1 (hallEq ▸ hh), (hdecide tr h2).1 hh]
  | false =>
    rw [(hdecide tr' hlen).2 (hallEq ▸ hh), (hdecide tr h2).2 hh]

/-- Witness for C2 at a concrete two-conjunct AND screen. -/
theorem C2_conjunction_rule_witness :
    (2 ≤ (AndTree.node (.leaf (.cpos (.staticAssets [1, 2])))
        (.leaf (.cneg etfLatest))).conjuncts.length ∧
      (⟨[], none, none, .generic⟩ : PipeState).prescreen = none) ∧
    ((((AndTree.node (.leaf (.cpos (.staticAssets [1, 2])))
          (.leaf (.cneg etfLatest))).conjuncts.all conjunctConverts = true →
      ∃ p, maybeConvertToPrescreen ⟨[], none, none, .generic⟩
          (compileTop (AndTree.node (.leaf (.cpos (.staticAssets [1, 2])))
            (.leaf (.cneg etfLatest))).toAST)
        = { (⟨[], none, none, .generic⟩ : PipeState) with
              screen := none, prescreen := some p }) ∧
    ((AndTree.node (.leaf (.cpos (.staticAssets [1, 2])))
          (.leaf (.cneg etfLatest))).conjuncts.all conjunctConverts = false →
      maybeConvertToPrescreen ⟨[], none, none, .generic⟩
          (compileTop (AndTree.node (.leaf (.cpos (.staticAssets [1, 2])))
            (.leaf (.cneg etfLatest))).toAST)
        = ⟨[], none, none, .generic⟩) ∧
    (∀ tr' : AndTree, tr'.conjuncts.Perm
        (AndTree.node (.leaf (.cpos (.staticAssets [1, 2])))
          (.leaf (.cneg etfLatest))).conjuncts →
      ((maybeConvertToPrescreen ⟨[], none, none, .generic⟩
          (compileTop tr'.toAST)).prescreen.isSome
        ↔ (maybeConvertToPrescreen ⟨[], none, none, .generic⟩
          (compileTop (AndTree.node (.leaf (.cpos (.staticAssets [1, 2])))
            (.leaf (.cneg etfLatest))).toAST)).prescreen.isSome)) ∧
    (∀ e : FilterAST, hasOr e = true →
      maybeConvertToPrescreen ⟨[], none, none, .generic⟩ (compileTop e)
        = ⟨[], none, none, .generic⟩))) :=
  ⟨⟨by decide, rfl⟩,
   C2_conjunction_rule ⟨[], none, none, .generic⟩
     (AndTree.node (.leaf (.cpos (.staticAssets [1, 2])))
       (.leaf (.cneg etfLatest))) (by decide) rfl⟩

/-! ## C1: prescreen equivalence (failing input) -/

theorem varName_zero : varName 0 = ['x', '_', '0'] := by
  unfold varName
  rw [decChars]
  simp [digitChar]

/-- Claim C1, evaluated at the failing input: the optimizer converts the
screen `~StaticAssets([5])` (compiled to the NumExprFilter `~x_0`) into the
prescreen `{sids: [5]}` — the sid branches of `_term_to_prescreen_dict`
ignore the `negate` flag — so the installed prescreen selects exactly the
asset with sid 5 while the original screen excludes it: the converted
pipeline and the original pipeline produce different output rows, refuting
the claimed exact equivalence for negated sid-based leaves. -/
theorem C1_negated_sid_screen_diverges :
    maybeConvertToPrescreen c1State (compileTop c1Screen)
      = { c1State with
            screen := none, prescreen := some ⟨some [5], none, none⟩ } ∧
    evalAST c1Asset c1Screen = false ∧
    evalPrescreen ⟨some [5], none, none⟩ c1Asset = true ∧
    evalPrescreen ⟨some [5], none, none⟩ c1Asset ≠ evalAST c1Asset c1Screen := by
  have hscr : compileTop c1Screen
      = .numExprFilter ('~' :: ['x', '_', '0'])
          [((['x', '_', '0'] : List Char), .staticAssets [5])] := by
    show PTerm.numExprFilter ('~' :: varName 0)
        [(varName 0, .staticAssets [5])] = _
    rw [varName_zero]
  refine ⟨?_, rfl, rfl, by decide⟩
  rw [hscr]
  unfold maybeConvertToPrescreen
  rw [show termToPrescreenDict
      (.numExprFilter ('~' :: ['x', '_', '0'])
        [((['x', '_', '0'] : List Char), .staticAssets [5])]) none false
      = none from rfl]
  dsimp only
  rw [show stripParens ('~' :: ['x', '_', '0']) = '~' :: ['x', '_', '0']
    from rfl]
  rw [splitAmp_no_amp ('~' :: ['x', '_', '0']) (by decide)]
  rfl

end ZiplineSpec
